import Mathlib

/-!
Verification of the van-art-cine staging / merge pipeline.

The definitions below are a shallow embedding of the Python sources under
src/database/scripts/ (db_helper.py, merge_duplicate_films.py,
merge_duplicate_persons.py, merge_staging_to_live.py, load_json.py).
Database tables are modelled as Lean lists of row structures, SQL statements
as pure functions on that state, and Python exceptions as Except values.
-/

/- ===================================================================
   Section 1: text helpers from db_helper.py
   =================================================================== -/

/-- The ASCII whitespace characters matched by Python regex \s
(space, tab, newline, carriage return, vertical tab, form feed). -/
def isPySpace (c : Char) : Bool :=
  c = ' ' || c = '\t' || c = '\n' || c = '\r' || c = Char.ofNat 11 || c = Char.ofNat 12

/-- Helper for collapsing whitespace runs.  The Bool argument records whether
the previous character was part of a whitespace run already emitted. -/
def collapseSpaceAux : Bool → List Char → List Char
  | _, [] => []
  | prevSpace, c :: rest =>
    if isPySpace c then
      if prevSpace then collapseSpaceAux true rest
      else ' ' :: collapseSpaceAux true rest
    else c :: collapseSpaceAux false rest

/-- Models Python re.sub(r"\s+", " ", s): every maximal whitespace run is
replaced by a single space. -/
def collapseSpace (l : List Char) : List Char := collapseSpaceAux false l

/-- Models Python str.strip(): remove whitespace from both ends. -/
def pyStrip (l : List Char) : List Char :=
  ((l.dropWhile isPySpace).reverse.dropWhile isPySpace).reverse

/-- String-level str.strip(). -/
def pyStripStr (s : String) : String := String.mk (pyStrip s.data)

/-- db_helper.norm_space: re.sub(r"\s+", " ", s.strip()). -/
def norm_space (l : List Char) : List Char := collapseSpace (pyStrip l)

/-- String-level norm_space. -/
def norm_spaceStr (s : String) : String := String.mk (norm_space s.data)

/-- One global pass of re.sub(r"\([^()]*\)", "", _) over the character list.

The scanner walks left to right exactly as the regex engine does.  The first
argument is `none` outside a candidate match, and `some acc` when the scanner
has consumed a "(" and then the (reversed) run `acc` of non-parenthesis
characters after it.  Seeing ")" completes the innermost match, which is
dropped; seeing "(" abandons the candidate (emitting it verbatim) and starts a
new candidate, which is exactly where the regex engine restarts. -/
def scanInnerAux : Option (List Char) → List Char → List Char
  | none, [] => []
  | some acc, [] => '(' :: acc.reverse
  | none, c :: rest =>
    if c = '(' then scanInnerAux (some []) rest
    else c :: scanInnerAux none rest
  | some acc, c :: rest =>
    if c = ')' then scanInnerAux none rest
    else if c = '(' then ('(' :: acc.reverse) ++ scanInnerAux (some []) rest
    else scanInnerAux (some (c :: acc)) rest

/-- Global replacement of every innermost balanced "(...)" by "", i.e. one
iteration of the body of remove_parentheses. -/
def scanInner (l : List Char) : List Char := scanInnerAux none l

/-- Models re.sub(r"\([^)]*$", "", _): delete from the leftmost "(" that has
no ")" anywhere after it through the end of the string. -/
def truncUnclosed : List Char → List Char
  | [] => []
  | c :: rest =>
    if c = '(' && !(rest.contains ')') then []
    else c :: truncUnclosed rest

/-- The while-loop of db_helper.remove_parentheses, with explicit fuel.
Each productive iteration removes at least one "()" pair, so `l.length` fuel
is always sufficient (proved below); the fuel-0 branch coincides with the
loop exit branch whenever the fuel bound holds. -/
def rpLoopFuel : Nat → List Char → List Char
  | 0, l => norm_space (truncUnclosed l)
  | n + 1, l =>
    let nw := scanInner l
    if nw = l then norm_space (truncUnclosed l) else rpLoopFuel n nw

/-- db_helper.remove_parentheses: repeatedly strip innermost balanced
parenthesised segments; once stable, drop any unclosed "(" tail and
normalize whitespace. -/
def remove_parentheses (s : String) : String :=
  String.mk (rpLoopFuel s.data.length s.data)

/-- The apostrophe character. -/
def aposChar : Char := Char.ofNat 39

/-- The concrete input string of the spec example:
"The Movie (2023 (Director overline-s Cut))" with an apostrophe before "s". -/
def c9Input : String :=
  "The Movie (2023 (Director" ++ String.singleton aposChar ++ "s Cut))"

/- ===================================================================
   Section 2: relational data model

   Timestamps are modelled as Int minutes since an epoch; runtimes are
   minutes, so guess_end adds the runtime directly.  Floats that are only
   tested for presence (imdb_rating) are modelled as Option Int.
   =================================================================== -/

/-- Python truthiness for an optional text column: NULL and the empty
string are falsy. -/
def pyTruthy (o : Option String) : Bool :=
  match o with
  | some s => !(s == "")
  | none => false

/-- Python truthiness for an optional integer column: NULL and 0 are falsy. -/
def pyTruthyInt (o : Option Int) : Bool :=
  match o with
  | some n => !(n == 0)
  | none => false

/-- A row of the film table (columns read by get_film_details). -/
structure FilmRow where
  id : Nat
  title : Option String
  year : Option Int
  rated : Option String
  genre : Option String
  language : Option String
  country : Option String
  awards : Option String
  rtRatingPct : Option Int
  imdbRating : Option Int
  imdbVotes : Option Int
  description : Option String
  normalizedTitle : Option String
  imdbId : Option String
  tmdbId : Option Int
  imdbUrl : Option String
  tags : List String
  createdAt : Option Int
deriving DecidableEq

/-- A row of the person table (columns read by get_person_details). -/
structure PersonRow where
  id : Nat
  name : Option String
  imdbId : Option String
  tmdbId : Option Int
  normalizedName : Option String
  createdAt : Option Int
deriving DecidableEq

/-- A row of the film_person junction table; primary key
(film_id, person_id, role). -/
structure FPRow where
  filmId : Nat
  personId : Nat
  role : String
deriving DecidableEq

/-- A row of the live screening table. -/
structure ScreeningRow where
  id : Nat
  filmId : Nat
  cinemaId : Nat
  startAt : Int
  endAt : Int
  runtimeMin : Option Int
  tz : String
  source : String
  sourceUid : String
  sourceUrl : Option String
  notes : Option String
  rawDate : Option String
  rawTime : Option String
  contentHash : String
  loadedAt : Int
  ingestRunId : Option Nat
  isActive : Bool
  tags : List String
  createdAt : Int
  updatedAt : Int
deriving DecidableEq

/-- A row of the stg_screening staging table (the columns inserted by
load_json.py, in the same roles). -/
structure StgRow where
  filmId : Nat
  cinemaId : Nat
  startAt : Int
  endAt : Int
  runtimeMin : Option Int
  tz : String
  source : String
  sourceUid : String
  sourceUrl : Option String
  notes : Option String
  rawDate : Option String
  rawTime : Option String
  contentHash : String
  loadedAt : Int
  tags : List String
deriving DecidableEq

/-- A row of the ops_ingest_run bookkeeping table. -/
structure OpsRun where
  id : Nat
  startedAt : Int
  finishedAt : Option Int
  status : String
  rowsIn : Option Nat
  rowsInserted : Option Nat
  rowsUpdated : Option Nat
  rowsDeactivated : Option Nat
deriving DecidableEq

/-- A row of the cinema table. -/
structure CinemaRow where
  id : Nat
  name : String
  website : Option String
  address : Option String
deriving DecidableEq

/-- A row of the raw_import audit table (the JSON payload blob is audit-only
and is not modelled). -/
structure RawImportRow where
  cinemaId : Nat
  source : String
deriving DecidableEq

/-- The whole database state.  nextXId counters model the serial id
sequences. -/
structure DB where
  cinemas : List CinemaRow
  films : List FilmRow
  persons : List PersonRow
  filmPerson : List FPRow
  screenings : List ScreeningRow
  stg : List StgRow
  opsRuns : List OpsRun
  rawImports : List RawImportRow
  nextCinemaId : Nat
  nextFilmId : Nat
  nextPersonId : Nat
  nextScreeningId : Nat
  nextOpsId : Nat
deriving DecidableEq

/- ===================================================================
   Section 3: duplicate mergers
   (merge_duplicate_films.py / merge_duplicate_persons.py)
   =================================================================== -/

/-- SELECT ... FROM film WHERE id = fid (get_film_details). -/
def getFilm (db : DB) (fid : Nat) : Option FilmRow :=
  db.films.find? (fun f => f.id == fid)

/-- SELECT ... FROM person WHERE id = pid (get_person_details). -/
def getPerson (db : DB) (pid : Nat) : Option PersonRow :=
  db.persons.find? (fun p => p.id == pid)

/-- count_film_references, screening part:
SELECT COUNT(*) FROM screening WHERE film_id = fid. -/
def screening_count (db : DB) (fid : Nat) : Nat :=
  (db.screenings.filter (fun s => s.filmId == fid)).length

/-- count_film_references, stg_screening part. -/
def stg_screening_count (db : DB) (fid : Nat) : Nat :=
  (db.stg.filter (fun s => s.filmId == fid)).length

/-- count_film_references, film_person part. -/
def film_person_count (db : DB) (fid : Nat) : Nat :=
  (db.filmPerson.filter (fun r => r.filmId == fid)).length

/-- merge_duplicate_films.count_film_references, the "total" entry:
screening + stg_screening + film_person references of a film. -/
def count_film_references (db : DB) (fid : Nat) : Nat :=
  screening_count db fid + stg_screening_count db fid + film_person_count db fid

/-- merge_duplicate_persons.count_film_references:
SELECT COUNT(*) FROM film_person WHERE person_id = pid. -/
def count_person_references (db : DB) (pid : Nat) : Nat :=
  (db.filmPerson.filter (fun r => r.personId == pid)).length

/-- merge_duplicate_films.metadata_score: one point per populated metadata
field, with Python truthiness (is-not-None for numeric fields, non-empty for
text fields, non-empty list for tags). -/
def metadata_score (r : FilmRow) : Nat :=
  (if r.year.isSome then 1 else 0) +
  (if pyTruthy r.rated then 1 else 0) +
  (if pyTruthy r.genre then 1 else 0) +
  (if pyTruthy r.language then 1 else 0) +
  (if pyTruthy r.country then 1 else 0) +
  (if pyTruthy r.awards then 1 else 0) +
  (if r.rtRatingPct.isSome then 1 else 0) +
  (if r.imdbRating.isSome then 1 else 0) +
  (if r.imdbVotes.isSome then 1 else 0) +
  (if pyTruthy r.description then 1 else 0) +
  (if pyTruthy r.normalizedTitle then 1 else 0) +
  (if pyTruthy r.imdbUrl then 1 else 0) +
  (if r.tags.length > 0 then 1 else 0)

/-- Strict lexicographic comparison of equal-length integer key lists,
mirroring Python tuple comparison. -/
def lexLtB : List Int → List Int → Bool
  | [], [] => false
  | [], _ :: _ => true
  | _ :: _, [] => false
  | a :: as, b :: bs => if a < b then true else if b < a then false else lexLtB as bs

/-- First component of the created_at key: the Python key uses
"-ts" with ts = timestamp if present else +inf, so a missing created_at
compares below (-inf) every present one; the presence bit encodes that. -/
def createdKeyPresent (c : Option Int) : Int :=
  match c with
  | some _ => 1
  | none => 0

/-- Second component of the created_at key: the negated timestamp, so an
earlier created_at compares larger (missing timestamps tie at 0 after the
presence bit). -/
def createdKeyNegTs (c : Option Int) : Int :=
  match c with
  | some t => -t
  | none => 0

/-- The score tuple of merge_duplicate_films.choose_best_film_record:
(count of populated external ids, metadata score, total reference count,
-timestamp, -id), compared lexicographically, larger is better. -/
def film_score (db : DB) (f : FilmRow) : List Int :=
  [ (if pyTruthy f.imdbId then 1 else 0) + (if pyTruthyInt f.tmdbId then 1 else 0),
    (metadata_score f : Int),
    (count_film_references db f.id : Int),
    createdKeyPresent f.createdAt, createdKeyNegTs f.createdAt, -(f.id : Int) ]

/-- The score tuple of merge_duplicate_persons.choose_best_record:
(count of populated external ids, film_person reference count, -timestamp,
-id); NOTE the source has no metadata-richness component for persons. -/
def person_score (db : DB) (p : PersonRow) : List Int :=
  [ (if pyTruthy p.imdbId then 1 else 0) + (if pyTruthyInt p.tmdbId then 1 else 0),
    (count_person_references db p.id : Int),
    createdKeyPresent p.createdAt, createdKeyNegTs p.createdAt, -(p.id : Int) ]

/-- sorted(records, key=score, reverse=True)[0]: Python sort is stable, so
with reverse=True the head of the result is the leftmost record whose score
is maximal; a left fold that replaces the candidate only on strict
improvement computes exactly that element. -/
def pickBest {α : Type} (key : α → List Int) (r0 : α) (rest : List α) : α :=
  rest.foldl (fun best r => if lexLtB (key best) (key r) then r else best) r0

/-- merge_duplicate_films.choose_best_film_record.  Records whose film row
has already disappeared are skipped; if none remain the first id of the
group is returned unchanged (the fallback branch of the source). -/
def choose_best_film_record (db : DB) (filmIds : List Nat) : Nat :=
  match filmIds.filterMap (fun fid => getFilm db fid) with
  | [] => filmIds.headD 0
  | r0 :: rest => (pickBest (film_score db) r0 rest).id

/-- merge_duplicate_persons.choose_best_record (callers only pass ids of
existing person rows, so the lookup is total here). -/
def choose_best_record (db : DB) (personIds : List Nat) : Nat :=
  match personIds.filterMap (fun pid => getPerson db pid) with
  | [] => personIds.headD 0
  | r0 :: rest => (pickBest (person_score db) r0 rest).id

/-- DELETE FROM screening s USING screening k WHERE s.film_id = mid AND
k.film_id = keep AND s.cinema_id = k.cinema_id AND
s.start_at_utc = k.start_at_utc (the proactive dedup before re-pointing). -/
def screeningDedupDelete (scr : List ScreeningRow) (keepId mid : Nat) : List ScreeningRow :=
  scr.filter (fun s =>
    !(s.filmId == mid &&
      scr.any (fun k => k.filmId == keepId && k.cinemaId == s.cinemaId && k.startAt == s.startAt)))

/-- INSERT INTO film_person (film_id, person_id, role)
SELECT keep, person_id, role FROM film_person WHERE film_id = mid
ON CONFLICT (film_id, person_id, role) DO NOTHING.
The SELECT reads the statement snapshot (rows with film_id = mid of the
incoming table); the conflict check sees rows inserted earlier by the same
statement, hence the fold over the growing accumulator. -/
def fpCopyFromFilm (fp : List FPRow) (keepId mid : Nat) : List FPRow :=
  (fp.filter (fun r => r.filmId == mid)).foldl
    (fun acc r =>
      if acc.any (fun q => q.filmId == keepId && q.personId == r.personId && q.role == r.role)
      then acc
      else acc ++ [⟨keepId, r.personId, r.role⟩])
    fp

/-- The body of the per-loser loop of merge_film_group (non-dry-run):
skip if the loser row is already gone, else dedup-delete conflicting
screenings, re-point screening / stg_screening / film_person references to
the kept film, and delete the loser film row. -/
def mergeFilmOne (db : DB) (keepId mid : Nat) : DB :=
  match getFilm db mid with
  | none => db
  | some _ =>
    let scr1 := screeningDedupDelete db.screenings keepId mid
    let scr2 := scr1.map (fun s => if s.filmId == mid then { s with filmId := keepId } else s)
    let stg2 := db.stg.map (fun s => if s.filmId == mid then { s with filmId := keepId } else s)
    let fp1 := fpCopyFromFilm db.filmPerson keepId mid
    let fp2 := fp1.filter (fun r => !(r.filmId == mid))
    let films2 := db.films.filter (fun f => !(f.id == mid))
    { db with films := films2, filmPerson := fp2, screenings := scr2, stg := stg2 }

/-- merge_duplicate_films.merge_film_group with dry_run = False: an empty
group and a missing keep row both return without changes; otherwise every
loser id is merged in order. -/
def merge_film_group (db : DB) (keepId : Nat) (mergeIds : List Nat) : DB :=
  if mergeIds.isEmpty then db
  else
    match getFilm db keepId with
    | none => db
    | some _ => mergeIds.foldl (fun d mid => mergeFilmOne d keepId mid) db

/-- The film_person copy of merge_persons: INSERT ... SELECT film_id, keep,
role FROM film_person WHERE person_id = mid ON CONFLICT DO NOTHING. -/
def fpCopyFromPerson (fp : List FPRow) (keepId mid : Nat) : List FPRow :=
  (fp.filter (fun r => r.personId == mid)).foldl
    (fun acc r =>
      if acc.any (fun q => q.filmId == r.filmId && q.personId == keepId && q.role == r.role)
      then acc
      else acc ++ [⟨r.filmId, keepId, r.role⟩])
    fp

/-- The body of the per-loser loop of merge_persons (non-dry-run): copy
film_person references to the kept person with conflict dedup, delete the
loser references, delete the loser person row (no existence check in the
source; the statements are no-ops on a missing id). -/
def mergePersonOne (db : DB) (keepId mid : Nat) : DB :=
  let fp1 := fpCopyFromPerson db.filmPerson keepId mid
  let fp2 := fp1.filter (fun r => !(r.personId == mid))
  let ps2 := db.persons.filter (fun p => !(p.id == mid))
  { db with filmPerson := fp2, persons := ps2 }

/-- SQL MAX over a list of text values (none on an empty list). -/
def sqlMaxStr (l : List String) : Option String :=
  l.foldl (fun acc s =>
    match acc with
    | none => some s
    | some t => some (if t ≤ s then s else t)) none

/-- SQL MAX over a list of integer values. -/
def sqlMaxInt (l : List Int) : Option Int :=
  l.foldl (fun acc n =>
    match acc with
    | none => some n
    | some m => some (max m n)) none

/-- The "enhance kept record" tail of merge_persons: best external ids are
computed over WHERE id IN (keep :: mergeIds) on the post-merge table, and are
written to the kept row only when the pre-merge kept row lacked them
(keepDetails is the fetch made before the loop). -/
def enhanceKeptPerson (db : DB) (keepId : Nat) (keepDetails : Option PersonRow)
    (allIds : List Nat) : DB :=
  let grp := db.persons.filter (fun p => allIds.contains p.id)
  let bestImdb := sqlMaxStr ((grp.filterMap (fun p => p.imdbId)).filter (fun s => !(s == "")))
  let bestTmdb := sqlMaxInt (grp.filterMap (fun p => p.tmdbId))
  let keepImdb := keepDetails.bind (fun p => p.imdbId)
  let keepTmdb := keepDetails.bind (fun p => p.tmdbId)
  let db1 :=
    if pyTruthy bestImdb && !(pyTruthy keepImdb) then
      { db with persons := db.persons.map (fun p =>
          if p.id == keepId then { p with imdbId := bestImdb } else p) }
    else db
  if pyTruthyInt bestTmdb && !(pyTruthyInt keepTmdb) then
    { db1 with persons := db1.persons.map (fun p =>
        if p.id == keepId then { p with tmdbId := bestTmdb } else p) }
  else db1

/-- merge_duplicate_persons.merge_persons with dry_run = False: the kept
row is fetched first, every loser is merged, then the enhancement step runs
(only when the group is non-empty). -/
def merge_persons (db : DB) (keepId : Nat) (mergeIds : List Nat) : DB :=
  let keepDetails := getPerson db keepId
  let db1 := mergeIds.foldl (fun d mid => mergePersonOne d keepId mid) db
  if mergeIds.isEmpty then db1
  else enhanceKeptPerson db1 keepId keepDetails (keepId :: mergeIds)

/- ===================================================================
   Section 4: staging -> live merge (merge_staging_to_live.py)
   =================================================================== -/

/-- The WHERE clause of SQL_INSERT for one staging row: upcoming, no live
row with the same ingest identity (source, source_uid), no live row with
the same business identity (cinema_id, film_id, start_at_utc).  `live` is
the statement snapshot of the screening table. -/
def stgInsertCond (live : List ScreeningRow) (cutoff : Int) (s : StgRow) : Bool :=
  decide (cutoff ≤ s.startAt) &&
  !(live.any (fun t => t.source == s.source && t.sourceUid == s.sourceUid)) &&
  !(live.any (fun t => t.cinemaId == s.cinemaId && t.filmId == s.filmId && t.startAt == s.startAt))

/-- The row built by the INSERT column list of SQL_INSERT: all staging
fields are copied, ingest_run_id is the current run, is_active is TRUE and
created_at / updated_at are NOW(). -/
def stgToLive (runId : Nat) (now : Int) (sid : Nat) (s : StgRow) : ScreeningRow :=
  { id := sid, filmId := s.filmId, cinemaId := s.cinemaId, startAt := s.startAt,
    endAt := s.endAt, runtimeMin := s.runtimeMin, tz := s.tz, source := s.source,
    sourceUid := s.sourceUid, sourceUrl := s.sourceUrl, notes := s.notes,
    rawDate := s.rawDate, rawTime := s.rawTime, contentHash := s.contentHash,
    loadedAt := s.loadedAt, ingestRunId := some runId, isActive := true,
    tags := s.tags, createdAt := now, updatedAt := now }

/-- Step relation of SQL_INSERT over one staging row.  The WHERE clause is
evaluated against the statement snapshot; rows already inserted by the same
statement are seen by the unique indexes: a duplicate (source, source_uid)
is swallowed by ON CONFLICT DO NOTHING, while a duplicate
(cinema_id, film_id, start_at_utc) raises a unique violation (none). -/
def sqlInsertStep (snapshot : List ScreeningRow) (runId : Nat) (cutoff now : Int)
    (acc : Option (List ScreeningRow × Nat × Nat)) (s : StgRow) :
    Option (List ScreeningRow × Nat × Nat) :=
  match acc with
  | none => none
  | some (live, nid, cnt) =>
    if stgInsertCond snapshot cutoff s then
      if live.any (fun t => t.source == s.source && t.sourceUid == s.sourceUid) then
        some (live, nid, cnt)
      else if live.any (fun t => t.cinemaId == s.cinemaId && t.filmId == s.filmId && t.startAt == s.startAt) then
        none
      else
        some (live ++ [stgToLive runId now nid s], nid + 1, cnt + 1)
    else some (live, nid, cnt)

/-- SQL_INSERT: insert the qualifying staging rows into screening, in
staging order, returning the new table, the next serial id and the inserted
count; none models a unique-constraint error aborting the transaction. -/
def sqlInsert (runId : Nat) (cutoff now : Int) (db : DB) :
    Option (List ScreeningRow × Nat × Nat) :=
  db.stg.foldl (sqlInsertStep db.screenings runId cutoff now)
    (some (db.screenings, db.nextScreeningId, 0))

/-- The join condition of SQL_UPDATE: matching (source, cinema_id, film_id,
start_at_utc) with an upcoming staging row. -/
def stgUpdateMatch (cutoff : Int) (t : ScreeningRow) (s : StgRow) : Bool :=
  t.source == s.source && t.cinemaId == s.cinemaId && t.filmId == s.filmId &&
  t.startAt == s.startAt && decide (cutoff ≤ s.startAt)

/-- The change-detection disjunction of SQL_UPDATE (IS DISTINCT FROM over
the content columns; the join columns are kept for fidelity even though the
join makes them equal). -/
def stgUpdateDistinct (t : ScreeningRow) (s : StgRow) : Bool :=
  !(t.filmId == s.filmId) || !(t.cinemaId == s.cinemaId) || !(t.startAt == s.startAt) ||
  !(t.endAt == s.endAt) || !(t.runtimeMin == s.runtimeMin) || !(t.tz == s.tz) ||
  !(t.sourceUrl == s.sourceUrl) || !(t.notes == s.notes) || !(t.rawDate == s.rawDate) ||
  !(t.rawTime == s.rawTime) || !(t.contentHash == s.contentHash) || !(t.tags == s.tags) ||
  !(t.isActive == true)

/-- The SET list of SQL_UPDATE applied to a live row from a staging row. -/
def applyStgUpdate (runId : Nat) (now : Int) (t : ScreeningRow) (s : StgRow) : ScreeningRow :=
  { t with
    filmId := s.filmId, cinemaId := s.cinemaId, startAt := s.startAt,
    endAt := s.endAt, runtimeMin := s.runtimeMin, tz := s.tz,
    sourceUrl := s.sourceUrl, notes := s.notes, rawDate := s.rawDate,
    rawTime := s.rawTime, contentHash := s.contentHash, loadedAt := s.loadedAt,
    ingestRunId := some runId, isActive := true, tags := s.tags, updatedAt := now }

/-- SQL_UPDATE: every live row joined to a changed upcoming staging row is
overwritten from it (when several staging rows match one live row Postgres
applies one of them; the model takes the first in staging order).  Returns
the new table and the updated count. -/
def sqlUpdate (runId : Nat) (cutoff now : Int) (stg : List StgRow)
    (live : List ScreeningRow) : List ScreeningRow × Nat :=
  let pick := fun t => (stg.filter (fun s => stgUpdateMatch cutoff t s && stgUpdateDistinct t s)).head?
  ( live.map (fun t =>
      match pick t with
      | some s => applyStgUpdate runId now t s
      | none => t),
    (live.filter (fun t => (pick t).isSome)).length )

/-- The WHERE clause of SQL_DEACTIVATE for one live row: upcoming, active,
not manual, and no staging row with the same
(source, cinema_id, film_id, start_at_utc). -/
def deactCond (stg : List StgRow) (cutoff : Int) (t : ScreeningRow) : Bool :=
  decide (cutoff ≤ t.startAt) && t.isActive && !(t.source == "manual") &&
  !(stg.any (fun s => s.source == t.source && s.cinemaId == t.cinemaId &&
      s.filmId == t.filmId && s.startAt == t.startAt))

/-- SQL_DEACTIVATE: set is_active = FALSE on every live row satisfying
deactCond, returning the new table and the deactivated count. -/
def sqlDeactivate (cutoff : Int) (stg : List StgRow) (live : List ScreeningRow) :
    List ScreeningRow × Nat :=
  ( live.map (fun t => if deactCond stg cutoff t then { t with isActive := false } else t),
    (live.filter (fun t => deactCond stg cutoff t)).length )

/-- The transaction body of run_merge: open a run row, count staging rows,
run the three phases, then close the run row with the counters.  The result
is none when a phase raises (unique violation in SQL_INSERT), which aborts
and rolls back the transaction. -/
def runMergePhases (cutoff now : Int) (db : DB) : Option (DB × Nat × Nat × Nat × Nat) :=
  let runId := db.nextOpsId
  let db0 := { db with
    opsRuns := db.opsRuns ++ [⟨runId, now, none, "running", none, none, none, none⟩],
    nextOpsId := runId + 1 }
  let rowsIn := db0.stg.length
  match sqlInsert runId cutoff now db0 with
  | none => none
  | some (live1, nid1, nIns) =>
    let db1 := { db0 with screenings := live1, nextScreeningId := nid1 }
    let (live2, nUpd) := sqlUpdate runId cutoff now db1.stg db1.screenings
    let db2 := { db1 with screenings := live2 }
    let (live3, nDeact) := sqlDeactivate cutoff db2.stg db2.screenings
    let db3 := { db2 with screenings := live3 }
    let db4 := { db3 with
      opsRuns := db3.opsRuns.map (fun r =>
        if r.id == runId then
          { r with
            finishedAt := some now, status := "success", rowsIn := some rowsIn,
            rowsInserted := some nIns, rowsUpdated := some nUpd,
            rowsDeactivated := some nDeact }
        else r) }
    some (db4, rowsIn, nIns, nUpd, nDeact)

/-- merge_staging_to_live.run_merge: all phases run inside one transaction;
with dry_run the transaction is rolled back after the counts are computed
(and it is also rolled back when a phase raises), otherwise it commits. -/
def run_merge (dryRun : Bool) (cutoff now : Int) (db : DB) : DB :=
  match runMergePhases cutoff now db with
  | none => db
  | some (db4, _, _, _, _) => if dryRun then db else db4

/- ===================================================================
   Section 5: the loader (load_json.py, with db_helper / aliases helpers)

   External library calls are oracle parameters of the load context:
   ai_clean_title_and_tags (none = the call raised), the source-specific
   datetime parser composed with to_utc (none = strptime/dateutil raised;
   the year hint of the source wrapper is part of the closure), and the
   unicodedata-based aliases._normalize.  A sha256 digest is modelled by
   its pre-image key string.  parse_runtime_minutes and the director-field
   regex split are applied at the input boundary (duration : Option Int,
   director : List String).
   =================================================================== -/

/-- load_json.parse_year on an already-integer value: keep it only in the
plausible range 1888..2100. -/
def parse_year (s : Option Int) : Option Int :=
  match s with
  | none => none
  | some y => if 1888 ≤ y ∧ y ≤ 2100 then some y else none

/-- load_json.guess_end: start + runtime minutes (0 when unknown). -/
def guess_end (startUtc : Int) (runtimeMin : Option Int) : Int :=
  startUtc + runtimeMin.getD 0

/-- str.lower on the ASCII range, written over the character list (the
same function as String.toLower, i.e. String.map Char.toLower). -/
def toLowerPy (s : String) : String := String.mk (s.data.map Char.toLower)

/-- load_json.is_missing_token on an already-fetched string field:
falsy strings and the placeholder tokens are "missing". -/
def is_missing_token (s : String) : Bool :=
  if s == "" then true
  else
    let t := toLowerPy (pyStripStr s)
    t == "no time" || t == "no date" || t == "tbd" || t == "n/a" || t == "-" || t == ""

/-- load_json.stable_uid: sha256 of "cinema|film|start", modelled by the
pre-image key. -/
def stable_uid (cinemaId filmId : Nat) (startAt : Int) : String :=
  String.intercalate "|" [toString cinemaId, toString filmId, toString startAt]

/-- load_json.make_content_hash: sha256 of the joined business fields,
modelled by the joined pre-image. -/
def make_content_hash (filmId cinemaId : Nat) (startUtc endUtc : Int)
    (runtimeMin : Option Int) (tz : String) (sourceUrl notes : Option String) : String :=
  String.intercalate "|"
    [ toString filmId, toString cinemaId, toString startUtc, toString endUtc,
      (match runtimeMin with | none => "" | some n => toString n),
      tz, sourceUrl.getD "", notes.getD "" ]

/-- The right single quotation mark replaced by norm_title. -/
def rsquoChar : Char := Char.ofNat 8217

/-- db_helper.norm_title: falsy titles map to "", otherwise the curly
apostrophe is straightened, whitespace normalized and the result lowered. -/
def norm_title (t : Option String) : String :=
  match t with
  | none => ""
  | some s =>
    if s == "" then ""
    else toLowerPy (norm_spaceStr (s.replace (String.singleton rsquoChar) (String.singleton aposChar)))

/-- Split at the first comma, dropping the comma (str.split(",", 1)). -/
def splitFirstComma (l : List Char) : Option (List Char × List Char) :=
  if l.contains ',' then
    some (l.takeWhile (fun c => !(c == ',')), (l.dropWhile (fun c => !(c == ','))).tail)
  else none

/-- db_helper.normalize_person_name: blank names map to ""; otherwise
normalize whitespace, swap "Last, First" to "First Last", delete periods,
normalize whitespace again and lower. -/
def normalize_person_name (name : String) : String :=
  if name == "" || pyStripStr name == "" then ""
  else
    let n1 := pyStrip (norm_space name.data)
    let n2 :=
      match splitFirstComma n1 with
      | some (a, b) => pyStrip b ++ ' ' :: pyStrip a
      | none => n1
    let n3 := n2.filter (fun c => !(c == '.'))
    toLowerPy (String.mk (norm_space n3))

/-- aliases.CINEMA_ALIASES: (source, alias) -> canonical name. -/
def CINEMA_ALIASES : List ((String × String) × String) :=
  [ (("viff", "the rio theatre"), "Rio Theatre"),
    (("viff", "rio theatre"), "Rio Theatre"),
    (("cinematheque", "the cinematheque"), "The Cinematheque") ]

/-- aliases.GLOBAL_ALIASES: alias -> canonical name. -/
def GLOBAL_ALIASES : List (String × String) :=
  [ ("rio theatre", "Rio Theatre"),
    ("the cinematheque", "The Cinematheque"),
    ("cinematheque", "The Cinematheque") ]

/-- Dictionary lookup. -/
def lookupAssoc {α β : Type} [BEq α] (l : List (α × β)) (k : α) : Option β :=
  (l.find? (fun p => p.1 == k)).map (fun p => p.2)

/-- aliases.resolve_cinema_alias: per-source table first, then the global
table, both after name normalization (cinNorm is the unicodedata-based
aliases._normalize, an oracle parameter). -/
def resolve_cinema_alias (cinNorm : String → String) (source scraped : String) :
    Option String :=
  let ns := cinNorm source
  let nn := cinNorm scraped
  let h1 := lookupAssoc CINEMA_ALIASES (ns, nn)
  if pyTruthy h1 then h1
  else
    let h2 := lookupAssoc GLOBAL_ALIASES nn
    if pyTruthy h2 then h2 else none

/-- The local eq_ci of load_source: case-insensitive comparison of stripped
strings, with None treated as "". -/
def eq_ci (a b : Option String) : Bool :=
  toLowerPy (pyStripStr (a.getD "")) == toLowerPy (pyStripStr (b.getD ""))

/-- load_json.ensure_cinema as the SQL behaves: INSERT ... ON CONFLICT
(name) DO UPDATE SET website, address, then SELECT id ... WHERE name = it.
On conflict the existing row keeps its id but website/address are
overwritten; otherwise a fresh serial id is used. -/
def ensure_cinema (db : DB) (name : String) (website : Option String) : Nat × DB :=
  if db.cinemas.any (fun c => c.name == name) then
    let cs := db.cinemas.map (fun c =>
      if c.name == name then { c with website := website, address := none } else c)
    (((cs.find? (fun c => c.name == name)).map (fun c => c.id)).getD 0,
     { db with cinemas := cs })
  else
    let cid := db.nextCinemaId
    (cid, { db with
      cinemas := db.cinemas ++ [{ id := cid, name := name, website := website, address := none }],
      nextCinemaId := cid + 1 })

/-- The lookup of ensure_film: normalized_title = LOWER(%s) AND year IS NOT
DISTINCT FROM %s. -/
def findFilmByKey (films : List FilmRow) (normalized : String) (year : Option Int) :
    Option FilmRow :=
  films.find? (fun f => f.normalizedTitle == some normalized && f.year == year)

/-- load_json.ensure_film: find by (normalized title, year); otherwise
insert (title, year, description, imdb, tmdb, normalized) and return the new
id.  created_at is a database default outside the model. -/
def ensure_film (db : DB) (title : String) (year : Option Int) (descr : Option String)
    (imdb : Option String) (tmdb : Option Int) : Nat × DB :=
  let normalized := norm_title (some title)
  match findFilmByKey db.films normalized year with
  | some f => (f.id, db)
  | none =>
    let fid := db.nextFilmId
    let row : FilmRow :=
      { id := fid, title := some title, year := year, rated := none, genre := none,
        language := none, country := none, awards := none, rtRatingPct := none,
        imdbRating := none, imdbVotes := none, description := descr,
        normalizedTitle := some normalized, imdbId := imdb, tmdbId := tmdb,
        imdbUrl := none, tags := [], createdAt := none }
    (fid, { db with films := db.films ++ [row], nextFilmId := fid + 1 })

/-- load_json.ensure_person: the two ValueError guards, then lookup by
imdb_id / tmdb_id (when truthy) / normalized_name, then insert-and-return.
The loader only calls this with imdb = tmdb = none. -/
def ensure_person (db : DB) (name : String) (imdb : Option String) (tmdb : Option Int) :
    Except String (Nat × DB) :=
  if name == "" || pyStripStr name == "" then .error "Person name cannot be empty"
  else
    let normalized := normalize_person_name name
    if normalized == "" then .error "Cannot normalize person name"
    else
      match (if pyTruthy imdb then db.persons.find? (fun p => p.imdbId == imdb) else none) with
      | some p => .ok (p.id, db)
      | none =>
        match (if pyTruthyInt tmdb then db.persons.find? (fun p => p.tmdbId == tmdb) else none) with
        | some p => .ok (p.id, db)
        | none =>
          match db.persons.find? (fun p => p.normalizedName == some normalized) with
          | some p => .ok (p.id, db)
          | none =>
            let pid := db.nextPersonId
            let row : PersonRow := ⟨pid, some name, imdb, tmdb, some normalized, none⟩
            .ok (pid, { db with persons := db.persons ++ [row], nextPersonId := pid + 1 })

/-- The film_person_ins statement: INSERT ... ON CONFLICT (film_id,
person_id, role) DO NOTHING. -/
def fpInsertDedup (fp : List FPRow) (filmId personId : Nat) (role : String) : List FPRow :=
  if fp.any (fun q => q.filmId == filmId && q.personId == personId && q.role == role) then fp
  else fp ++ [⟨filmId, personId, role⟩]

/-- load_json.link_directors over the already-split name list: each name is
whitespace-normalized, blanks are dropped, and every remaining name is
upserted as a person and linked with role "director". -/
def link_directors (db : DB) (filmId : Nat) (names : List String) : Except String DB :=
  ((names.map norm_spaceStr).filter (fun n => !(n == ""))).foldlM
    (fun d n =>
      match ensure_person d n none none with
      | .error e => .error e
      | .ok (pid, d1) =>
        .ok { d1 with filmPerson := fpInsertDedup d1.filmPerson filmId pid "director" })
    db

/-- One scraped showtime.  date and time carry the JSON values defaulted to
"" as the source does with st.get(...) or ""; sid is st.get("id"). -/
structure Showtime where
  date : String
  time : String
  venue : Option String
  sid : Option String
deriving DecidableEq

/-- One scraped film row of the input JSON.  duration already went through
parse_runtime_minutes and director through strip_dir_prefix plus the regex
split (input-boundary encoding); rid is r.get("id"). -/
structure InputRow where
  title : String
  year : Option Int
  duration : Option Int
  description : Option String
  director : List String
  detailUrl : Option String
  rid : Option String
  showtimes : List Showtime
deriving DecidableEq

/-- The per-source context of a load_source call: the oracle functions plus
the constants the wrapper passes (source name, default cinema, website) and
the loaded_at_utc clock reading. -/
structure LoadCtx where
  aiClean : String → Option (String × List String)
  parseDt : String → String → Option Int
  cinNorm : String → String
  sourceName : String
  cinemaName : String
  cinemaWebsite : Option String
  loadedAt : Int

/-- The venue-resolution prefix of the per-showtime body of load_source:
prefer the scraped venue, fall back to the default cinema name, then run the
alias table (a falsy canonical result falls back to the candidate). -/
def resolveVenue (ctx : LoadCtx) (st : Showtime) : String :=
  let scraped := pyStripStr (st.venue.getD "")
  let candidate := if scraped == "" then ctx.cinemaName else scraped
  match resolve_cinema_alias ctx.cinNorm ctx.sourceName candidate with
  | some c => if c == "" then candidate else c
  | none => candidate

/-- The website passed to ensure_cinema for a showtime: the default site
only when the resolved venue equals the default cinema case-insensitively. -/
def venueSite (ctx : LoadCtx) (st : Showtime) : Option String :=
  if eq_ci (some (resolveVenue ctx st)) (some ctx.cinemaName) then ctx.cinemaWebsite else none

/-- The staging row the loader inserts for one parsed showtime (the column
list of stg_screening_ins). -/
def buildStgRow (ctx : LoadCtx) (filmId : Nat) (runtimeMin : Option Int)
    (detailUrl rid : Option String) (baseTags : List String) (st : Showtime)
    (cid : Nat) (startUtc : Int) : StgRow :=
  let endUtc := guess_end startUtc runtimeMin
  let upstream := if pyTruthy st.sid then st.sid else if pyTruthy rid then rid else none
  let sourceUid :=
    match upstream with
    | some u => u
    | none => stable_uid cid filmId startUtc
  let contentHash :=
    make_content_hash filmId cid startUtc endUtc runtimeMin "America/Vancouver" detailUrl none
  { filmId := filmId, cinemaId := cid, startAt := startUtc, endAt := endUtc,
    runtimeMin := runtimeMin, tz := "America/Vancouver", source := ctx.sourceName,
    sourceUid := sourceUid, sourceUrl := detailUrl, notes := none,
    rawDate := some st.date, rawTime := some st.time, contentHash := contentHash,
    loadedAt := ctx.loadedAt, tags := baseTags }

/-- The per-showtime body of load_source: resolve the venue (scraped name,
alias table, default), upsert the cinema, skip the row on missing date/time
tokens, parse the datetime (an uncaught exception aborts), then build and
insert the staging row. -/
def processShowtime (ctx : LoadCtx) (filmId : Nat) (runtimeMin : Option Int)
    (detailUrl rid : Option String) (baseTags : List String)
    (db : DB) (st : Showtime) : Except String DB :=
  let ec := ensure_cinema db (resolveVenue ctx st) (venueSite ctx st)
  if is_missing_token (pyStripStr st.date) || is_missing_token (pyStripStr st.time) then .ok ec.2
  else
    match ctx.parseDt (pyStripStr st.date) (pyStripStr st.time) with
    | none => .error "datetime parse error"
    | some startUtc =>
      .ok { ec.2 with
        stg := ec.2.stg
          ++ [buildStgRow ctx filmId runtimeMin detailUrl rid baseTags st ec.1 startUtc] }

/-- The try/except around the AI title cleaning: a raise (none) falls back
to the raw title and no tags, a falsy cleaned title also falls back, and the
returned tags are stripped with blanks dropped. -/
def aiCleanPair (ctx : LoadCtx) (title : String) : String × List String :=
  match ctx.aiClean title with
  | some (nt, tags) =>
    (if nt == "" then title else nt, (tags.map pyStripStr).filter (fun t => !(t == "")))
  | none => (title, [])

/-- The per-row body of load_source: the AI title cleaning is the only call
wrapped in try/except (a raise falls back to the raw title and no tags); the
film is upserted under the cleaned title, directors are linked, and each
showtime is processed in order. -/
def processRow (ctx : LoadCtx) (db : DB) (r : InputRow) : Except String DB :=
  let cleanPair := aiCleanPair ctx r.title
  let fd := ensure_film db cleanPair.1 (parse_year r.year) r.description none none
  match link_directors fd.2 fd.1 r.director with
  | .error e => .error e
  | .ok db2 =>
    r.showtimes.foldlM (processShowtime ctx fd.1 r.duration r.detailUrl r.rid cleanPair.2) db2

/-- load_json.load_source: upsert the default cinema, write the raw_import
audit row, clear the staging table for this source, then process every input
row; a row-level exception other than the AI call propagates and aborts the
whole batch. -/
def load_source (ctx : LoadCtx) (db : DB) (rows : List InputRow) : Except String DB :=
  let cd := ensure_cinema db ctx.cinemaName ctx.cinemaWebsite
  let db2 := { cd.2 with
    rawImports := cd.2.rawImports ++ [(⟨cd.1, ctx.sourceName⟩ : RawImportRow)] }
  let db3 := { db2 with stg := db2.stg.filter (fun s => !(s.source == ctx.sourceName)) }
  rows.foldlM (processRow ctx) db3

/- ===================================================================
   Section 6: auxiliary definitions for the statements
   =================================================================== -/

/-- Modelled from the spec: "richness of metadata" transported to person
rows, counting the populated non-id, non-bookkeeping fields (name,
normalized_name) exactly as metadata_score counts populated film fields. -/
def spec_person_metadata (p : PersonRow) : Nat :=
  (if pyTruthy p.name then 1 else 0) + (if pyTruthy p.normalizedName then 1 else 0)

/-- Modelled from the spec (section 4.3): candidates are scored by count of
populated external ids, richness of metadata, total reference count, earlier
created_at, smaller id — descending priority in that order — for persons as
well as films. -/
def spec_person_score (db : DB) (p : PersonRow) : List Int :=
  [ (if pyTruthy p.imdbId then 1 else 0) + (if pyTruthyInt p.tmdbId then 1 else 0),
    (spec_person_metadata p : Int),
    (count_person_references db p.id : Int),
    createdKeyPresent p.createdAt, createdKeyNegTs p.createdAt, -(p.id : Int) ]

/-- The person chooser the spec describes (same leftmost-maximum selection,
spec score order). -/
def spec_choose_best_person (db : DB) (personIds : List Nat) : Nat :=
  match personIds.filterMap (fun pid => getPerson db pid) with
  | [] => personIds.headD 0
  | r0 :: rest => (pickBest (spec_person_score db) r0 rest).id

/-- The staging rows the insert phase keeps: upcoming and unmatched by both
identity keys against the statement snapshot. -/
def qualifyingStg (db : DB) (cutoff : Int) : List StgRow :=
  db.stg.filter (stgInsertCond db.screenings cutoff)

/-- A staging row with its load timestamp erased, for comparing the staging
contents of two loader runs made at different wall-clock times. -/
def dropLoadedAt (s : StgRow) : StgRow := { s with loadedAt := 0 }

/-- Two staging rows differ on the ingest identity (source, source_uid). -/
def uidDistinct (a b : StgRow) : Prop :=
  ¬(a.source = b.source ∧ a.sourceUid = b.sourceUid)

/-- Two staging rows differ on the business identity
(cinema_id, film_id, start_at_utc). -/
def bizDistinct (a b : StgRow) : Prop :=
  ¬(a.cinemaId = b.cinemaId ∧ a.filmId = b.filmId ∧ a.startAt = b.startAt)

/-- The screening rows produced by the insert phase from a staging list,
with consecutive serial ids from nid. -/
def stgInsertedRows (runId : Nat) (now : Int) : Nat → List StgRow → List ScreeningRow
  | _, [] => []
  | nid, s :: rest => stgToLive runId now nid s :: stgInsertedRows runId now (nid + 1) rest

/-- No screening / stg_screening / film_person row references film x. -/
def filmRefsClean (d : DB) (x : Nat) : Prop :=
  (∀ s ∈ d.screenings, s.filmId ≠ x) ∧ (∀ s ∈ d.stg, s.filmId ≠ x) ∧
  (∀ p ∈ d.filmPerson, p.filmId ≠ x)

/-- No film row has id x. -/
def filmGone (d : DB) (x : Nat) : Prop := ∀ f ∈ d.films, f.id ≠ x

/-- No film_person row references person x. -/
def personRefsClean (d : DB) (x : Nat) : Prop := ∀ p ∈ d.filmPerson, p.personId ≠ x

/-- No person row has id x. -/
def personGone (d : DB) (x : Nat) : Prop := ∀ q ∈ d.persons, q.id ≠ x

/-- The (cinema_id, start_at_utc) keys of the screenings of a film group:
the unique-constraint keys the merge has to dedup. -/
def scrGroupKeys (d : DB) (ids : List Nat) : List (Nat × Int) :=
  (d.screenings.filter (fun s => ids.contains s.filmId)).map (fun s => (s.cinemaId, s.startAt))

/-- The (person_id, role) keys of the film_person rows of a film group:
the primary-key remainder the merge dedups with ON CONFLICT. -/
def fpGroupKeys (d : DB) (ids : List Nat) : List (Nat × String) :=
  (d.filmPerson.filter (fun r => ids.contains r.filmId)).map (fun r => (r.personId, r.role))

/-- The name -> id map of the cinema table: the id the SELECT of
ensure_cinema reads back for a name (first row wins). -/
def cinIdOf (cs : List CinemaRow) (name : String) : Option Nat :=
  (cs.find? (fun c => c.name == name)).map (fun c => c.id)

/-- The (normalized title, year) -> id map of the film table: the id the
lookup of ensure_film reads for a key. -/
def filmIdOf (fs : List FilmRow) (nrm : String) (year : Option Int) : Option Nat :=
  (findFilmByKey fs nrm year).map (fun f => f.id)

/-- Extension of the dimension-key maps between two database states: every
cinema name and every film key resolvable in the first state resolves to the
same id in the second.  Every loader step preserves this relation forward,
which is why a second run over the same input reuses the ids of the first. -/
def MapsLe (d e : DB) : Prop :=
  (∀ n i, cinIdOf d.cinemas n = some i → cinIdOf e.cinemas n = some i) ∧
  (∀ k y i, filmIdOf d.films k y = some i → filmIdOf e.films k y = some i)

/-- The two ValueError guards of ensure_person as a predicate of the name
alone: ensure_person succeeds exactly on good names, in any state. -/
def goodName (n : String) : Bool :=
  !(n == "" || pyStripStr n == "") && !(normalize_person_name n == "")

/-- Refresh the load timestamp of a staging row: the only column of an
emitted staging row that differs between two loader runs over the same
input. -/
def reLoad (t : Int) (s : StgRow) : StgRow := { s with loadedAt := t }

/- ===================================================================
   Section 7: concrete fixtures used by witnesses and counterexamples
   =================================================================== -/

/-- The empty database. -/
def emptyDB : DB :=
  { cinemas := [], films := [], persons := [], filmPerson := [], screenings := [],
    stg := [], opsRuns := [], rawImports := [], nextCinemaId := 1, nextFilmId := 1,
    nextPersonId := 1, nextScreeningId := 1, nextOpsId := 1 }

/-- A staging row fixture. -/
def stgRowA : StgRow :=
  { filmId := 1, cinemaId := 2, startAt := 100, endAt := 160, runtimeMin := some 60,
    tz := "America/Vancouver", source := "viff", sourceUid := "u1", sourceUrl := none,
    notes := none, rawDate := some "d", rawTime := some "t", contentHash := "h",
    loadedAt := 50, tags := [] }

/-- A database with one upcoming staging row and an empty live table. -/
def dbC6 : DB := { emptyDB with stg := [stgRowA] }

/-- A second staging row with the same ingest identity (source, source_uid)
as stgRowA but a different business key: what a duplicated showtime in the
input JSON produces, since stable_uid hashes (cinema, film, start). -/
def stgRowA2 : StgRow := { stgRowA with cinemaId := 3 }

/-- A second staging row with the same business identity
(cinema_id, film_id, start_at_utc) as stgRowA but a different ingest key:
what two sources resolved to the same cinema/film/start produce. -/
def stgRowA3 : StgRow := { stgRowA with sourceUid := "u2" }

/-- Staging holds two upcoming rows sharing an ingest key; live is empty. -/
def dbC6dup : DB := { emptyDB with stg := [stgRowA, stgRowA2] }

/-- Staging holds two upcoming rows sharing a business key; live is empty. -/
def dbC6biz : DB := { emptyDB with stg := [stgRowA, stgRowA3] }

/-- Person fixture with populated metadata (name, normalized_name) and no
references. -/
def personP1 : PersonRow :=
  { id := 1, name := some "Ann A", imdbId := none, tmdbId := none,
    normalizedName := some "ann a", createdAt := none }

/-- Person fixture with empty metadata and one film_person reference. -/
def personP2 : PersonRow :=
  { id := 2, name := none, imdbId := none, tmdbId := none,
    normalizedName := none, createdAt := none }

/-- A database with a duplicate person group where metadata richness and
reference count disagree. -/
def dbC5 : DB :=
  { emptyDB with
    persons := [personP1, personP2],
    filmPerson := [⟨10, 2, "director"⟩] }

/-- A live screening row fixture (active, non-manual, upcoming). -/
def scrRowA : ScreeningRow :=
  { id := 1, filmId := 1, cinemaId := 2, startAt := 100, endAt := 160,
    runtimeMin := some 60, tz := "America/Vancouver", source := "viff",
    sourceUid := "u1", sourceUrl := none, notes := none, rawDate := some "d",
    rawTime := some "t", contentHash := "h", loadedAt := 50, ingestRunId := none,
    isActive := true, tags := [], createdAt := 0, updatedAt := 0 }

/-- Film fixture with id 1. -/
def filmF1 : FilmRow :=
  { id := 1, title := some "A", year := some 2000, rated := none, genre := none,
    language := none, country := none, awards := none, rtRatingPct := none,
    imdbRating := none, imdbVotes := none, description := none,
    normalizedTitle := some "a", imdbId := some "tt1", tmdbId := none,
    imdbUrl := none, tags := [], createdAt := some 10 }

/-- Duplicate film fixture with id 2 and the same imdb id. -/
def filmF2 : FilmRow :=
  { id := 2, title := some "A", year := some 2000, rated := none, genre := none,
    language := none, country := none, awards := none, rtRatingPct := none,
    imdbRating := none, imdbVotes := none, description := none,
    normalizedTitle := some "a", imdbId := some "tt1", tmdbId := none,
    imdbUrl := none, tags := [], createdAt := some 20 }

/-- A database with a duplicate film pair where the loser (id 2) is
referenced by one screening, one staging row and one film_person row. -/
def dbC1 : DB :=
  { emptyDB with
    films := [filmF1, filmF2],
    screenings := [{ scrRowA with filmId := 2, sourceUid := "u2" }],
    stg := [{ stgRowA with filmId := 2 }],
    filmPerson := [⟨2, 7, "director"⟩] }

/-- A database with a duplicate film pair whose screenings collide on
(cinema_id, start_at_utc): the merge dedup-deletes one of them. -/
def dbC4 : DB :=
  { emptyDB with
    films := [filmF1, filmF2],
    screenings := [scrRowA, { scrRowA with id := 2, filmId := 2, sourceUid := "u2" }] }

/-- A load context whose datetime parser always raises (models a source
whose date strings stop matching every format, so strptime and the dateutil
fallback both throw) and whose AI cleaner succeeds. -/
def ctxC3 : LoadCtx :=
  { aiClean := fun t => some (t, []),
    parseDt := fun _ _ => none,
    cinNorm := fun s => toLowerPy s,
    sourceName := "rio",
    cinemaName := "Rio Theatre",
    cinemaWebsite := some "https://riotheatre.ca",
    loadedAt := 1000 }

/-- The same context with a working parser (each (date, time) maps to a
fixed instant) and an AI cleaner that always raises. -/
def ctxC3ok : LoadCtx :=
  { aiClean := fun _ => none,
    parseDt := fun _ _ => some 52000000,
    cinNorm := fun s => toLowerPy s,
    sourceName := "rio",
    cinemaName := "Rio Theatre",
    cinemaWebsite := some "https://riotheatre.ca",
    loadedAt := 1000 }

/-- Input row with one well-formed showtime whose date text the parser
rejects. -/
def rowC3a : InputRow :=
  { title := "Film One", year := some 2024, duration := some 90, description := none,
    director := ["Ann Smith"], detailUrl := some "https://riotheatre.ca/f1", rid := none,
    showtimes := [{ date := "Friday January 3", time := "7:00pm", venue := none, sid := none }] }

/-- A second, equally well-formed input row. -/
def rowC3b : InputRow :=
  { title := "Film Two", year := some 2023, duration := some 100, description := none,
    director := [], detailUrl := none, rid := none,
    showtimes := [{ date := "Saturday January 4", time := "9:00pm", venue := none, sid := none }] }

/-- The database after the first loader run of the idempotence witness. -/
def dbC8 : DB :=
  match load_source ctxC3ok emptyDB [rowC3a, rowC3b] with
  | .ok d => d
  | .error _ => emptyDB

/-- The (table, next id, count) result of the first insert phase of the
merge idempotence witness. -/
def insC8 : List ScreeningRow × Nat × Nat :=
  (sqlInsert 1 0 0 dbC6).getD ([], 1, 0)

/- ===================================================================
   Theorems
   =================================================================== -/

theorem scanInnerAux_cases (l : List Char) :
    (scanInnerAux none l = l ∨ (scanInnerAux none l).length < l.length) ∧
    (∀ acc, scanInnerAux (some acc) l = ('(' :: acc.reverse) ++ l ∨
      (scanInnerAux (some acc) l).length < acc.length + 1 + l.length) := by
  induction l with
  | nil =>
    refine ⟨Or.inl rfl, fun acc => Or.inl ?_⟩
    simp [scanInnerAux]
  | cons c rest ih =>
    constructor
    · by_cases hc : c = '('
      · subst hc
        have e : scanInnerAux none ('(' :: rest) = scanInnerAux (some []) rest := by
          simp [scanInnerAux]
        rcases ih.2 [] with h | h
        · exact Or.inl (by rw [e, h]; simp)
        · refine Or.inr ?_
          rw [e]
          simp only [List.length_nil, List.length_cons] at h ⊢
          omega
      · have e : scanInnerAux none (c :: rest) = c :: scanInnerAux none rest := by
          simp [scanInnerAux, hc]
        rcases ih.1 with h | h
        · exact Or.inl (by rw [e, h])
        · refine Or.inr ?_
          rw [e]
          simp only [List.length_cons]
          omega
    · intro acc
      by_cases hc : c = ')'
      · subst hc
        have e : scanInnerAux (some acc) (')' :: rest) = scanInnerAux none rest := by
          simp [scanInnerAux]
        refine Or.inr ?_
        rw [e]
        rcases ih.1 with h | h
        · rw [h]; simp only [List.length_cons]; omega
        · simp only [List.length_cons]; omega
      · by_cases hc2 : c = '('
        · subst hc2
          have e : scanInnerAux (some acc) ('(' :: rest)
              = ('(' :: acc.reverse) ++ scanInnerAux (some []) rest := by
            simp [scanInnerAux]
          rcases ih.2 [] with h | h
          · refine Or.inl ?_
            rw [e, h]; simp
          · refine Or.inr ?_
            rw [e]
            simp only [List.length_append, List.length_cons, List.length_reverse,
              List.length_nil] at h ⊢
            omega
        · have e : scanInnerAux (some acc) (c :: rest)
              = scanInnerAux (some (c :: acc)) rest := by
            simp [scanInnerAux, hc, hc2]
          rcases ih.2 (c :: acc) with h | h
          · refine Or.inl ?_
            rw [e, h]; simp
          · refine Or.inr ?_
            rw [e]
            simp only [List.length_cons] at h ⊢
            omega

theorem scanInner_shrink (l : List Char) (h : scanInner l ≠ l) :
    (scanInner l).length < l.length :=
  (scanInnerAux_cases l).1.resolve_left h

theorem rpLoopFuel_stable (n : Nat) :
    ∀ (m : Nat) (l : List Char), l.length ≤ n → l.length ≤ m →
      rpLoopFuel n l = rpLoopFuel m l := by
  induction n with
  | zero =>
    intro m l hn _
    have hl : l = [] := List.eq_nil_of_length_eq_zero (Nat.le_zero.mp hn)
    subst hl
    cases m with
    | zero => rfl
    | succ m => simp [rpLoopFuel, scanInner, scanInnerAux]
  | succ n ih =>
    intro m l hn hm
    cases m with
    | zero =>
      have hl : l = [] := List.eq_nil_of_length_eq_zero (Nat.le_zero.mp hm)
      subst hl
      simp [rpLoopFuel, scanInner, scanInnerAux]
    | succ m =>
      by_cases hs : scanInner l = l
      · simp [rpLoopFuel, hs]
      · have hlt := scanInner_shrink l hs
        simp only [rpLoopFuel, if_neg hs]
        exact ih m (scanInner l) (by omega) (by omega)

/-- C10: remove_parentheses terminates on every input.  Each productive
iteration of the while-loop (a pass of re.sub(r"\(..\)") that changes the
string) strictly shortens it, and once the fuel given to the loop reaches
the string length the computed value no longer depends on the fuel, i.e. the
unbounded Python loop exits within length-many iterations with this value,
truncating at any unclosed "(" and normalizing whitespace on exit. -/
theorem c10_remove_parentheses_terminates :
    (∀ l : List Char, scanInner l ≠ l → (scanInner l).length < l.length) ∧
    (∀ (fuel : Nat) (l : List Char), l.length ≤ fuel →
      rpLoopFuel fuel l = rpLoopFuel l.length l) := by
  refine ⟨scanInner_shrink, fun fuel l h => rpLoopFuel_stable fuel l.length l h le_rfl⟩

theorem c10_witness :
    (scanInner ("(a)b".data)).length < ("(a)b".data).length ∧
    rpLoopFuel 9 ("(a)b".data) = rpLoopFuel (("(a)b".data).length) ("(a)b".data) :=
  ⟨c10_remove_parentheses_terminates.1 ("(a)b".data) (by decide),
   c10_remove_parentheses_terminates.2 9 ("(a)b".data) (by decide)⟩

/-- C9: remove_parentheses( "The Movie (2023 (Director@s Cut))" ) = "The
Movie" (with @ the apostrophe): the nested parenthesised segments are
stripped inner-to-outer and the trailing whitespace is collapsed. -/
theorem c9_remove_parentheses_example : remove_parentheses c9Input = "The Movie" := by
  decide

/-- C2: run_merge with dry_run = True leaves the entire database state
unchanged: every table (screening, stg_screening, ops_ingest_run included)
and every id sequence of the state is exactly what it was before the run,
because all phases execute inside the one transaction that is rolled back
after the counts are computed. -/
theorem c2_dry_run_unchanged (cutoff now : Int) (db : DB) :
    run_merge true cutoff now db = db := by
  unfold run_merge
  cases runMergePhases cutoff now db with
  | none => rfl
  | some r => simp

/-- The WHERE clause of SQL_DEACTIVATE, as a proposition. -/
theorem deactCond_iff (stg : List StgRow) (cutoff : Int) (t : ScreeningRow) :
    deactCond stg cutoff t = true ↔
      (cutoff ≤ t.startAt ∧ t.isActive = true ∧ t.source ≠ "manual" ∧
        ¬ ∃ s ∈ stg, s.source = t.source ∧ s.cinemaId = t.cinemaId ∧
          s.filmId = t.filmId ∧ s.startAt = t.startAt) := by
  simp [deactCond, List.any_eq_true, and_assoc]

/-- C7: the deactivate phase sets is_active = FALSE for exactly the live
rows that are upcoming, active, non-manual and unmatched in staging on
(source, cinema_id, film_id, start_at_utc); every other live row keeps its
is_active value, and no other column of any row changes. -/
theorem c7_deactivate_exact (cutoff : Int) (stg : List StgRow) (live : List ScreeningRow) :
    (sqlDeactivate cutoff stg live).1.length = live.length ∧
    ∀ i : Fin live.length,
      ((cutoff ≤ (live.get i).startAt ∧ (live.get i).isActive = true ∧
          (live.get i).source ≠ "manual" ∧
          ¬ ∃ s ∈ stg, s.source = (live.get i).source ∧ s.cinemaId = (live.get i).cinemaId ∧
            s.filmId = (live.get i).filmId ∧ s.startAt = (live.get i).startAt) →
        ((sqlDeactivate cutoff stg live).1.getD i.val (live.get i)).isActive = false) ∧
      (¬ (cutoff ≤ (live.get i).startAt ∧ (live.get i).isActive = true ∧
          (live.get i).source ≠ "manual" ∧
          ¬ ∃ s ∈ stg, s.source = (live.get i).source ∧ s.cinemaId = (live.get i).cinemaId ∧
            s.filmId = (live.get i).filmId ∧ s.startAt = (live.get i).startAt) →
        ((sqlDeactivate cutoff stg live).1.getD i.val (live.get i)).isActive
          = (live.get i).isActive) ∧
      ((sqlDeactivate cutoff stg live).1.getD i.val (live.get i))
        = (if deactCond stg cutoff (live.get i) then
            { live.get i with isActive := false } else live.get i) := by
  constructor
  · simp [sqlDeactivate]
  · intro i
    have hlen : i.val < (sqlDeactivate cutoff stg live).1.length := by
      simpa [sqlDeactivate] using i.isLt
    have hget : (sqlDeactivate cutoff stg live).1.getD i.val (live.get i)
        = (if deactCond stg cutoff (live.get i) then
            { live.get i with isActive := false } else live.get i) := by
      rw [List.getD_eq_get _ _ hlen]
      simp only [sqlDeactivate]
      rw [List.get_map]
    refine ⟨?_, ?_, hget⟩
    · intro hp
      have hc : deactCond stg cutoff (live.get i) = true :=
        (deactCond_iff stg cutoff (live.get i)).mpr hp
      rw [hget, if_pos hc]
    · intro hp
      have hc : deactCond stg cutoff (live.get i) = false := by
        by_contra hb
        exact hp ((deactCond_iff stg cutoff (live.get i)).mp
          (Bool.eq_true_of_ne_false (by simpa using hb)))
      rw [hget, if_neg (by simp_all)]

theorem stgInsertCond_parts (live : List ScreeningRow) (cutoff : Int) (s : StgRow)
    (h : stgInsertCond live cutoff s = true) :
    cutoff ≤ s.startAt ∧
    live.any (fun t => t.source == s.source && t.sourceUid == s.sourceUid) = false ∧
    live.any (fun t => t.cinemaId == s.cinemaId && t.filmId == s.filmId && t.startAt == s.startAt) = false := by
  unfold stgInsertCond at h
  simp only [Bool.and_eq_true, Bool.not_eq_true', decide_eq_true_eq] at h
  exact ⟨h.1.1, h.1.2, h.2⟩

theorem stgInsertCond_prop (live : List ScreeningRow) (cutoff : Int) (s : StgRow) :
    stgInsertCond live cutoff s = true ↔
      (cutoff ≤ s.startAt ∧
        (¬ ∃ t ∈ live, t.source = s.source ∧ t.sourceUid = s.sourceUid) ∧
        (¬ ∃ t ∈ live, t.cinemaId = s.cinemaId ∧ t.filmId = s.filmId ∧ t.startAt = s.startAt)) := by
  simp [stgInsertCond, List.any_eq_true, and_assoc]

theorem stgInsertedRows_isActive (runId : Nat) (now : Int) :
    ∀ (nid : Nat) (l : List StgRow), ∀ r ∈ stgInsertedRows runId now nid l, r.isActive = true := by
  intro nid l
  induction l generalizing nid with
  | nil => intro r hr; simp [stgInsertedRows] at hr
  | cons s rest ih =>
    intro r hr
    rcases (by simpa [stgInsertedRows] using hr : r = stgToLive runId now nid s ∨
        r ∈ stgInsertedRows runId now (nid + 1) rest) with h | h
    · rw [h]; rfl
    · exact ih (nid + 1) r h

theorem sqlInsertStep_fold (snapshot : List ScreeningRow) (runId : Nat) (cutoff now : Int) :
    ∀ (stg : List StgRow) (extra : List ScreeningRow) (nid cnt : Nat),
      (∀ s ∈ stg, stgInsertCond snapshot cutoff s = true →
        (∀ t ∈ extra, ¬(t.source = s.source ∧ t.sourceUid = s.sourceUid)) ∧
        (∀ t ∈ extra, ¬(t.cinemaId = s.cinemaId ∧ t.filmId = s.filmId ∧ t.startAt = s.startAt))) →
      List.Pairwise uidDistinct (stg.filter (stgInsertCond snapshot cutoff)) →
      List.Pairwise bizDistinct (stg.filter (stgInsertCond snapshot cutoff)) →
      stg.foldl (sqlInsertStep snapshot runId cutoff now) (some (snapshot ++ extra, nid, cnt))
        = some (snapshot ++ (extra ++ stgInsertedRows runId now nid (stg.filter (stgInsertCond snapshot cutoff))),
                nid + (stg.filter (stgInsertCond snapshot cutoff)).length,
                cnt + (stg.filter (stgInsertCond snapshot cutoff)).length) := by
  intro stg
  induction stg with
  | nil =>
    intro extra nid cnt _ _ _
    simp [stgInsertedRows]
  | cons s rest ih =>
    intro extra nid cnt h1 h2 h3
    by_cases hc : stgInsertCond snapshot cutoff s = true
    · have hparts := stgInsertCond_parts snapshot cutoff s hc
      have hextra := h1 s (List.mem_cons_self s rest) hc
      have hany1 : (snapshot ++ extra).any
          (fun t => t.source == s.source && t.sourceUid == s.sourceUid) = false := by
        rw [List.any_append]
        refine Bool.or_eq_false_iff.mpr ⟨hparts.2.1, ?_⟩
        rw [List.any_eq_false]
        intro t ht
        have := hextra.1 t ht
        simpa using this
      have hany2 : (snapshot ++ extra).any
          (fun t => t.cinemaId == s.cinemaId && t.filmId == s.filmId && t.startAt == s.startAt) = false := by
        rw [List.any_append]
        refine Bool.or_eq_false_iff.mpr ⟨hparts.2.2, ?_⟩
        rw [List.any_eq_false]
        intro t ht
        have := hextra.2 t ht
        simpa using this
      have hstep : sqlInsertStep snapshot runId cutoff now (some (snapshot ++ extra, nid, cnt)) s
          = some ((snapshot ++ extra) ++ [stgToLive runId now nid s], nid + 1, cnt + 1) := by
        simp [sqlInsertStep, hc, hany1, hany2]
      have hfilter : (s :: rest).filter (stgInsertCond snapshot cutoff)
          = s :: rest.filter (stgInsertCond snapshot cutoff) := List.filter_cons_of_pos hc
      rw [hfilter] at h2 h3
      have h2r := List.Pairwise.of_cons h2
      have h3r := List.Pairwise.of_cons h3
      have h2h : ∀ s2 ∈ rest.filter (stgInsertCond snapshot cutoff), uidDistinct s s2 :=
        fun s2 hs2 => List.rel_of_pairwise_cons h2 hs2
      have h3h : ∀ s2 ∈ rest.filter (stgInsertCond snapshot cutoff), bizDistinct s s2 :=
        fun s2 hs2 => List.rel_of_pairwise_cons h3 hs2
      have h1r : ∀ s2 ∈ rest, stgInsertCond snapshot cutoff s2 = true →
          (∀ t ∈ extra ++ [stgToLive runId now nid s],
            ¬(t.source = s2.source ∧ t.sourceUid = s2.sourceUid)) ∧
          (∀ t ∈ extra ++ [stgToLive runId now nid s],
            ¬(t.cinemaId = s2.cinemaId ∧ t.filmId = s2.filmId ∧ t.startAt = s2.startAt)) := by
        intro s2 hs2 hcond2
        have hs2f : s2 ∈ rest.filter (stgInsertCond snapshot cutoff) :=
          List.mem_filter.mpr ⟨hs2, hcond2⟩
        have hbase := h1 s2 (List.mem_cons_of_mem s hs2) hcond2
        constructor
        · intro t ht
          rcases List.mem_append.mp ht with h | h
          · exact hbase.1 t h
          · have : t = stgToLive runId now nid s := by simpa using h
            rw [this]
            exact h2h s2 hs2f
        · intro t ht
          rcases List.mem_append.mp ht with h | h
          · exact hbase.2 t h
          · have : t = stgToLive runId now nid s := by simpa using h
            rw [this]
            exact h3h s2 hs2f
      have := ih (extra ++ [stgToLive runId now nid s]) (nid + 1) (cnt + 1) h1r h2r h3r
      calc (s :: rest).foldl (sqlInsertStep snapshot runId cutoff now)
              (some (snapshot ++ extra, nid, cnt))
          = rest.foldl (sqlInsertStep snapshot runId cutoff now)
              (some (snapshot ++ (extra ++ [stgToLive runId now nid s]), nid + 1, cnt + 1)) := by
            rw [List.foldl_cons, hstep, List.append_assoc]
        _ = some (snapshot ++ ((extra ++ [stgToLive runId now nid s]) ++
                stgInsertedRows runId now (nid + 1) (rest.filter (stgInsertCond snapshot cutoff))),
              (nid + 1) + (rest.filter (stgInsertCond snapshot cutoff)).length,
              (cnt + 1) + (rest.filter (stgInsertCond snapshot cutoff)).length) := this
        _ = some (snapshot ++ (extra ++ stgInsertedRows runId now nid
                ((s :: rest).filter (stgInsertCond snapshot cutoff))),
              nid + ((s :: rest).filter (stgInsertCond snapshot cutoff)).length,
              cnt + ((s :: rest).filter (stgInsertCond snapshot cutoff)).length) := by
            rw [hfilter]
            simp only [stgInsertedRows, List.length_cons, List.append_assoc,
              List.singleton_append]
            refine congrArg some ?_
            refine Prod.ext ?_ (Prod.ext ?_ ?_) <;> simp <;> omega
    · have hstep : sqlInsertStep snapshot runId cutoff now (some (snapshot ++ extra, nid, cnt)) s
          = some (snapshot ++ extra, nid, cnt) := by
        simp [sqlInsertStep, hc]
      have hfilter : (s :: rest).filter (stgInsertCond snapshot cutoff)
          = rest.filter (stgInsertCond snapshot cutoff) := List.filter_cons_of_neg (by simpa using hc)
      rw [List.foldl_cons, hstep, hfilter]
      exact ih extra nid cnt (fun s2 hs2 => h1 s2 (List.mem_cons_of_mem s hs2))
        (by rw [hfilter] at h2; exact h2) (by rw [hfilter] at h3; exact h3)

/-- C6 (amended): when the qualifying staging rows carry pairwise distinct
identity keys, the insert phase inserts into screening exactly the staging
rows with start_at_utc at or after the cutoff for which no live row exists
with the same (source, source_uid) and none with the same
(cinema_id, film_id, start_at_utc); the new table is the old one plus those
rows in staging order, and every inserted row has is_active = TRUE.  The
distinctness provisos are needed because stg_screening has no unique
constraints: a duplicate ingest key among qualifying rows is swallowed by
ON CONFLICT DO NOTHING and a duplicate business key aborts the whole
statement (see the counterexample). -/
theorem c6_insert_exact (db : DB) (runId : Nat) (cutoff now : Int)
    (h1 : List.Pairwise uidDistinct (qualifyingStg db cutoff))
    (h2 : List.Pairwise bizDistinct (qualifyingStg db cutoff)) :
    sqlInsert runId cutoff now db
      = some (db.screenings ++ stgInsertedRows runId now db.nextScreeningId (qualifyingStg db cutoff),
              db.nextScreeningId + (qualifyingStg db cutoff).length,
              (qualifyingStg db cutoff).length) ∧
    (∀ s ∈ db.stg, (s ∈ qualifyingStg db cutoff ↔
        (cutoff ≤ s.startAt ∧
          (¬ ∃ t ∈ db.screenings, t.source = s.source ∧ t.sourceUid = s.sourceUid) ∧
          (¬ ∃ t ∈ db.screenings, t.cinemaId = s.cinemaId ∧ t.filmId = s.filmId ∧ t.startAt = s.startAt)))) ∧
    (∀ r ∈ stgInsertedRows runId now db.nextScreeningId (qualifyingStg db cutoff),
      r.isActive = true) := by
  refine ⟨?_, ?_, stgInsertedRows_isActive runId now db.nextScreeningId _⟩
  · have hfold := sqlInsertStep_fold db.screenings runId cutoff now db.stg []
      db.nextScreeningId 0
      (by intro s _ _; exact ⟨fun t ht => absurd ht (List.not_mem_nil t),
        fun t ht => absurd ht (List.not_mem_nil t)⟩)
      (by simpa [qualifyingStg] using h1)
      (by simpa [qualifyingStg] using h2)
    unfold sqlInsert
    rw [List.append_nil] at hfold
    simpa [qualifyingStg] using hfold
  · intro s hs
    rw [qualifyingStg, List.mem_filter]
    rw [stgInsertCond_prop]
    exact ⟨fun h => h.2, fun h => ⟨hs, h⟩⟩

theorem c6_witness :
    sqlInsert 5 0 7 dbC6
      = some (dbC6.screenings ++ stgInsertedRows 5 7 dbC6.nextScreeningId (qualifyingStg dbC6 0),
              dbC6.nextScreeningId + (qualifyingStg dbC6 0).length,
              (qualifyingStg dbC6 0).length) :=
  (c6_insert_exact dbC6 5 0 7
    (by simp [qualifyingStg, dbC6, emptyDB, stgRowA, stgInsertCond])
    (by simp [qualifyingStg, dbC6, emptyDB, stgRowA, stgInsertCond])).1

/-- C6 counterexample: without the distinct-key provisos the claim's
"inserts exactly those rows" is false.  In dbC6dup both staging rows are
upcoming and unmatched in live by either identity key — the claim says both
are inserted — yet SQL_INSERT inserts only the first (the second hits the
(source, source_uid) unique index and is swallowed by ON CONFLICT DO
NOTHING).  In dbC6biz both rows again qualify, but the second violates the
(cinema_id, film_id, start_at_utc) unique index, which has no ON CONFLICT
clause: the statement aborts and nothing at all is inserted. -/
theorem c6_counterexample :
    (qualifyingStg dbC6dup 0).length = 2 ∧
    sqlInsert 5 0 7 dbC6dup = some ([stgToLive 5 7 1 stgRowA], 2, 1) ∧
    (qualifyingStg dbC6biz 0).length = 2 ∧
    sqlInsert 5 0 7 dbC6biz = none := by
  decide

theorem lexLtB_irrefl : ∀ a : List Int, lexLtB a a = false := by
  intro a
  induction a with
  | nil => rfl
  | cons x xs ih => simp [lexLtB, ih]

theorem lexLtB_trans : ∀ a b c : List Int,
    lexLtB a b = true → lexLtB b c = true → lexLtB a c = true := by
  intro a
  induction a with
  | nil =>
    intro b c hab hbc
    cases b with
    | nil => exact absurd hab (by simp [lexLtB])
    | cons y ys =>
      cases c with
      | nil => exact absurd hbc (by simp [lexLtB])
      | cons z zs => simp [lexLtB]
  | cons x xs ih =>
    intro b c hab hbc
    cases b with
    | nil => exact absurd hab (by simp [lexLtB])
    | cons y ys =>
      cases c with
      | nil => exact absurd hbc (by simp [lexLtB])
      | cons z zs =>
        simp only [lexLtB] at hab hbc ⊢
        by_cases hxy : x < y
        · by_cases hyz : y < z
          · rw [if_pos (by omega)]
          · rw [if_neg hyz] at hbc
            by_cases hzy : z < y
            · rw [if_pos hzy] at hbc; exact absurd hbc (by simp)
            · rw [if_pos (by omega)]
        · rw [if_neg hxy] at hab
          by_cases hyx : y < x
          · rw [if_pos hyx] at hab; exact absurd hab (by simp)
          · rw [if_neg hyx] at hab
            by_cases hyz : y < z
            · rw [if_pos (by omega)]
            · rw [if_neg hyz] at hbc
              by_cases hzy : z < y
              · rw [if_pos hzy] at hbc; exact absurd hbc (by simp)
              · rw [if_neg hzy] at hbc
                rw [if_neg (by omega), if_neg (by omega)]
                exact ih ys zs hab hbc

theorem lexLtB_connex : ∀ a b : List Int, a ≠ b →
    lexLtB a b = true ∨ lexLtB b a = true := by
  intro a
  induction a with
  | nil =>
    intro b hne
    cases b with
    | nil => exact absurd rfl hne
    | cons y ys => exact Or.inl (by simp [lexLtB])
  | cons x xs ih =>
    intro b hne
    cases b with
    | nil => exact Or.inr (by simp [lexLtB])
    | cons y ys =>
      by_cases hxy : x < y
      · exact Or.inl (by simp [lexLtB, hxy])
      · by_cases hyx : y < x
        · exact Or.inr (by simp [lexLtB, hyx])
        · have hxe : x = y := by omega
          subst hxe
          have hne2 : xs ≠ ys := by
            intro h; exact hne (by rw [h])
          rcases ih ys hne2 with h | h
          · exact Or.inl (by simp [lexLtB, lt_irrefl, h])
          · exact Or.inr (by simp [lexLtB, lt_irrefl, h])

theorem lexLtB_asymm {a b : List Int} (h : lexLtB a b = true) : lexLtB b a = false := by
  by_contra hb
  have hba : lexLtB b a = true := by
    cases hcase : lexLtB b a with
    | true => rfl
    | false => exact absurd hcase hb
  have := lexLtB_trans a b a h hba
  rw [lexLtB_irrefl] at this
  exact absurd this (by simp)

theorem pickBest_spec {α : Type} (key : α → List Int) :
    ∀ (rest : List α) (r0 : α),
      (pickBest key r0 rest = r0 ∨ pickBest key r0 rest ∈ rest) ∧
      lexLtB (key (pickBest key r0 rest)) (key r0) = false ∧
      ∀ x ∈ rest, lexLtB (key (pickBest key r0 rest)) (key x) = false := by
  intro rest
  induction rest with
  | nil =>
    intro r0
    refine ⟨Or.inl rfl, ?_, fun x hx => absurd hx (List.not_mem_nil x)⟩
    simp [pickBest, lexLtB_irrefl]
  | cons r rest ih =>
    intro r0
    have hstep : pickBest key r0 (r :: rest)
        = pickBest key (if lexLtB (key r0) (key r) then r else r0) rest := by
      simp [pickBest]
    by_cases himp : lexLtB (key r0) (key r) = true
    · rw [hstep, if_pos himp]
      rcases ih r with ⟨hm, hvr, hall⟩
      refine ⟨?_, ?_, ?_⟩
      · rcases hm with h | h
        · exact Or.inr (by rw [h]; exact List.mem_cons_self r rest)
        · exact Or.inr (List.mem_cons_of_mem r h)
      · by_contra hb
        have hlt : lexLtB (key (pickBest key r rest)) (key r0) = true := by
          cases hcase : lexLtB (key (pickBest key r rest)) (key r0) with
          | true => rfl
          | false => exact absurd hcase hb
        have := lexLtB_trans _ _ _ hlt himp
        rw [hvr] at this
        exact absurd this (by simp)
      · intro x hx
        rcases List.mem_cons.mp hx with h | h
        · rw [h]; exact hvr
        · exact hall x h
    · have himpf : lexLtB (key r0) (key r) = false := by
        cases hcase : lexLtB (key r0) (key r) with
        | true => exact absurd hcase himp
        | false => rfl
      rw [hstep, if_neg (by simp [himpf])]
      rcases ih r0 with ⟨hm, hvr, hall⟩
      refine ⟨?_, hvr, ?_⟩
      · rcases hm with h | h
        · exact Or.inl h
        · exact Or.inr (List.mem_cons_of_mem r h)
      · intro x hx
        rcases List.mem_cons.mp hx with h | h
        · subst h
          by_contra hb
          have hlt : lexLtB (key (pickBest key r0 rest)) (key x) = true := by
            cases hcase : lexLtB (key (pickBest key r0 rest)) (key x) with
            | true => rfl
            | false => exact absurd hcase hb
          by_cases he : key (pickBest key r0 rest) = key r0
          · rw [he] at hlt
            rw [hlt] at himpf
            exact absurd himpf (by simp)
          · rcases lexLtB_connex _ _ he with h1 | h1
            · rw [hvr] at h1; exact absurd h1 (by simp)
            · have := lexLtB_trans _ _ _ h1 hlt
              rw [himpf] at this
              exact absurd this (by simp)
        · exact hall x h

theorem chooser_core {β : Type} (lookup : Nat → Option β) (key : β → List Int)
    (rid : β → Nat)
    (hid : ∀ i f, lookup i = some f → rid f = i)
    (hkey : ∀ f g, key f = key g → rid f = rid g)
    (ids : List Nat) (r0 : β) (rest : List β)
    (hrec : ids.filterMap (fun i => lookup i) = r0 :: rest) :
    rid (pickBest key r0 rest) ∈ ids ∧
    ∃ fb, lookup (rid (pickBest key r0 rest)) = some fb ∧
      ∀ i ∈ ids, i ≠ rid (pickBest key r0 rest) → ∀ fi, lookup i = some fi →
        lexLtB (key fi) (key fb) = true := by
  rcases pickBest_spec key rest r0 with ⟨hmem, hvr0, hall⟩
  have hmem2 : pickBest key r0 rest ∈ r0 :: rest := by
    rcases hmem with h | h
    · rw [h]; exact List.mem_cons_self r0 rest
    · exact List.mem_cons_of_mem r0 h
  have hmem3 : pickBest key r0 rest ∈ ids.filterMap (fun i => lookup i) := by
    rw [hrec]; exact hmem2
  rcases List.mem_filterMap.mp hmem3 with ⟨i0, hi0, hlk⟩
  have hrid : rid (pickBest key r0 rest) = i0 := hid _ _ hlk
  refine ⟨by rw [hrid]; exact hi0, pickBest key r0 rest, by rw [hrid]; exact hlk, ?_⟩
  intro i hi hine fi hfi
  have hfi2 : fi ∈ r0 :: rest := by
    rw [← hrec]
    exact List.mem_filterMap.mpr ⟨i, hi, hfi⟩
  have hnotlt : lexLtB (key (pickBest key r0 rest)) (key fi) = false := by
    rcases List.mem_cons.mp hfi2 with h | h
    · rw [h]; exact hvr0
    · exact hall fi h
  have hne : key fi ≠ key (pickBest key r0 rest) := by
    intro he
    have := hkey fi (pickBest key r0 rest) he
    rw [hid i fi hfi, hrid] at this
    rw [hrid] at hine
    exact hine this
  rcases lexLtB_connex _ _ hne with h | h
  · exact h
  · rw [hnotlt] at h
    exact absurd h (by simp)

theorem getFilm_spec (db : DB) (i : Nat) (f : FilmRow) (h : getFilm db i = some f) :
    f.id = i := by
  unfold getFilm at h
  have := List.find?_some h
  simpa using this

theorem getPerson_spec (db : DB) (i : Nat) (p : PersonRow) (h : getPerson db i = some p) :
    p.id = i := by
  unfold getPerson at h
  have := List.find?_some h
  simpa using this

theorem film_score_inj (db : DB) (f g : FilmRow)
    (h : film_score db f = film_score db g) : f.id = g.id := by
  simp only [film_score, List.cons.injEq, and_true] at h
  omega

theorem person_score_inj (db : DB) (f g : PersonRow)
    (h : person_score db f = person_score db g) : f.id = g.id := by
  simp only [person_score, List.cons.injEq, and_true] at h
  omega

/-- C5 (amended): for film groups the kept candidate is the unique
strictly-highest-scoring record under the lexicographic priority (populated
external ids, metadata richness, total reference count, earlier created_at,
smaller id); for person groups the same holds but WITHOUT the
metadata-richness criterion (the source scores persons only by external ids,
reference count, created_at, id).  Both choosers are plain functions of
these attributes, hence fully deterministic. -/
theorem c5_chooser_amended :
    (∀ (db : DB) (ids : List Nat), ids ≠ [] → (∀ i ∈ ids, (getFilm db i).isSome) →
      choose_best_film_record db ids ∈ ids ∧
      ∃ fb, getFilm db (choose_best_film_record db ids) = some fb ∧
        ∀ i ∈ ids, i ≠ choose_best_film_record db ids →
          ∀ fi, getFilm db i = some fi →
            lexLtB (film_score db fi) (film_score db fb) = true) ∧
    (∀ (db : DB) (ids : List Nat), ids ≠ [] → (∀ i ∈ ids, (getPerson db i).isSome) →
      choose_best_record db ids ∈ ids ∧
      ∃ pb, getPerson db (choose_best_record db ids) = some pb ∧
        ∀ i ∈ ids, i ≠ choose_best_record db ids →
          ∀ pb2, getPerson db i = some pb2 →
            lexLtB (person_score db pb2) (person_score db pb) = true) := by
  constructor
  · intro db ids hne hall
    rcases hrec : ids.filterMap (fun i => getFilm db i) with _ | ⟨r0, rest⟩
    · exfalso
      rcases List.exists_mem_of_ne_nil ids hne with ⟨i, hi⟩
      rcases Option.isSome_iff_exists.mp (hall i hi) with ⟨f, hf⟩
      have : f ∈ ids.filterMap (fun i => getFilm db i) :=
        List.mem_filterMap.mpr ⟨i, hi, hf⟩
      rw [hrec] at this
      exact absurd this (List.not_mem_nil f)
    · have hres : choose_best_film_record db ids = (pickBest (film_score db) r0 rest).id := by
        unfold choose_best_film_record
        rw [hrec]
      rw [hres]
      exact chooser_core (getFilm db) (film_score db) (fun f => f.id)
        (getFilm_spec db) (film_score_inj db) ids r0 rest hrec
  · intro db ids hne hall
    rcases hrec : ids.filterMap (fun i => getPerson db i) with _ | ⟨r0, rest⟩
    · exfalso
      rcases List.exists_mem_of_ne_nil ids hne with ⟨i, hi⟩
      rcases Option.isSome_iff_exists.mp (hall i hi) with ⟨f, hf⟩
      have : f ∈ ids.filterMap (fun i => getPerson db i) :=
        List.mem_filterMap.mpr ⟨i, hi, hf⟩
      rw [hrec] at this
      exact absurd this (List.not_mem_nil f)
    · have hres : choose_best_record db ids = (pickBest (person_score db) r0 rest).id := by
        unfold choose_best_record
        rw [hrec]
      rw [hres]
      exact chooser_core (getPerson db) (person_score db) (fun p => p.id)
        (getPerson_spec db) (person_score_inj db) ids r0 rest hrec

theorem c5_witness : choose_best_record dbC5 [1, 2] ∈ [1, 2] :=
  (c5_chooser_amended.2 dbC5 [1, 2] (by decide) (by decide)).1

/-- C5 counterexample: in the person group {personP1, personP2}, personP1
has strictly richer metadata (populated name and normalized_name) and
personP2 has more references; the claimed priority (metadata richness
before reference count, as for films) would keep id 1, but
choose_best_record keeps id 2 because the person scorer has no metadata
criterion at all. -/
theorem c5_counterexample :
    choose_best_record dbC5 [1, 2] = 2 ∧ spec_choose_best_person dbC5 [1, 2] = 1 := by
  decide

theorem fpCopyFromFilm_mem (fp : List FPRow) (k m : Nat) :
    ∀ r ∈ fpCopyFromFilm fp k m, r ∈ fp ∨ r.filmId = k := by
  unfold fpCopyFromFilm
  have main : ∀ (l acc : List FPRow), (∀ r ∈ acc, r ∈ fp ∨ r.filmId = k) →
      ∀ r ∈ l.foldl (fun acc r =>
        if acc.any (fun q => q.filmId == k && q.personId == r.personId && q.role == r.role)
        then acc else acc ++ [⟨k, r.personId, r.role⟩]) acc,
        r ∈ fp ∨ r.filmId = k := by
    intro l
    induction l with
    | nil => intro acc hacc r hr; exact hacc r hr
    | cons a l ih =>
      intro acc hacc r hr
      simp only [List.foldl_cons] at hr
      by_cases hca : (acc.any
          (fun q => q.filmId == k && q.personId == a.personId && q.role == a.role)) = true
      · rw [if_pos hca] at hr
        exact ih acc hacc r hr
      · rw [if_neg hca] at hr
        refine ih (acc ++ [⟨k, a.personId, a.role⟩]) ?_ r hr
        intro r2 hr2
        rcases List.mem_append.mp hr2 with h2 | h2
        · exact hacc r2 h2
        · have he : r2 = (⟨k, a.personId, a.role⟩ : FPRow) := by simpa using h2
          exact Or.inr (by rw [he])
  exact main _ fp (fun r hr => Or.inl hr)

theorem fpCopyFromPerson_mem (fp : List FPRow) (k m : Nat) :
    ∀ r ∈ fpCopyFromPerson fp k m, r ∈ fp ∨ r.personId = k := by
  unfold fpCopyFromPerson
  have main : ∀ (l acc : List FPRow), (∀ r ∈ acc, r ∈ fp ∨ r.personId = k) →
      ∀ r ∈ l.foldl (fun acc r =>
        if acc.any (fun q => q.filmId == r.filmId && q.personId == k && q.role == r.role)
        then acc else acc ++ [⟨r.filmId, k, r.role⟩]) acc,
        r ∈ fp ∨ r.personId = k := by
    intro l
    induction l with
    | nil => intro acc hacc r hr; exact hacc r hr
    | cons a l ih =>
      intro acc hacc r hr
      simp only [List.foldl_cons] at hr
      by_cases hca : (acc.any
          (fun q => q.filmId == a.filmId && q.personId == k && q.role == a.role)) = true
      · rw [if_pos hca] at hr
        exact ih acc hacc r hr
      · rw [if_neg hca] at hr
        refine ih (acc ++ [⟨a.filmId, k, a.role⟩]) ?_ r hr
        intro r2 hr2
        rcases List.mem_append.mp hr2 with h2 | h2
        · exact hacc r2 h2
        · have he : r2 = (⟨a.filmId, k, a.role⟩ : FPRow) := by simpa using h2
          exact Or.inr (by rw [he])
  exact main _ fp (fun r hr => Or.inl hr)

theorem mergeFilmOne_films (d : DB) (k m : Nat) :
    (mergeFilmOne d k m).films = d.films.filter (fun f => !(f.id == m)) := by
  unfold mergeFilmOne
  cases h : getFilm d m with
  | none =>
    unfold getFilm at h
    rw [List.find?_eq_none] at h
    have : ∀ f ∈ d.films, (!(f.id == m)) = true := by
      intro f hf
      have := h f hf
      simpa using this
    rw [List.filter_eq_self.mpr this]
  | some f => rfl

theorem mergeFilmOne_unchanged_of_none (d : DB) (k m : Nat) (h : getFilm d m = none) :
    mergeFilmOne d k m = d := by
  unfold mergeFilmOne
  rw [h]

theorem getFilm_isSome_of_mem (d : DB) (m : Nat) (h : ∃ f ∈ d.films, f.id = m) :
    ∃ f, getFilm d m = some f := by
  rcases h with ⟨f, hf, hid⟩
  unfold getFilm
  have hs : (d.films.find? (fun f => f.id == m)).isSome = true :=
    List.find?_isSome.mpr ⟨f, hf, beq_iff_eq.mpr hid⟩
  exact Option.isSome_iff_exists.mp hs

theorem mergeFilmOne_clean (d : DB) (k m : Nat) (hk : k ≠ m)
    (h : (∃ f ∈ d.films, f.id = m) ∨ (filmRefsClean d m ∧ filmGone d m)) :
    filmRefsClean (mergeFilmOne d k m) m ∧ filmGone (mergeFilmOne d k m) m := by
  cases hg : getFilm d m with
  | none =>
    rw [mergeFilmOne_unchanged_of_none d k m hg]
    rcases h with h | h
    · rcases getFilm_isSome_of_mem d m h with ⟨f, hf⟩
      rw [hg] at hf
      exact absurd hf (by simp)
    · exact h
  | some f0 =>
    constructor
    · refine ⟨?_, ?_, ?_⟩
      · intro s hs
        simp only [mergeFilmOne, hg] at hs
        rcases List.mem_map.mp hs with ⟨s0, _, rfl⟩
        by_cases hm : s0.filmId == m
        · rw [if_pos hm]
          simpa using hk
        · rw [if_neg hm]
          simpa using hm
      · intro s hs
        simp only [mergeFilmOne, hg] at hs
        rcases List.mem_map.mp hs with ⟨s0, _, rfl⟩
        by_cases hm : s0.filmId == m
        · rw [if_pos hm]
          simpa using hk
        · rw [if_neg hm]
          simpa using hm
      · intro p hp
        simp only [mergeFilmOne, hg] at hp
        have := List.mem_filter.mp hp
        simpa using this.2
    · intro f hf
      simp only [mergeFilmOne, hg] at hf
      have := List.mem_filter.mp hf
      simpa using this.2

theorem mergeFilmOne_preserve (d : DB) (k m x : Nat) (hx : x ≠ k)
    (h : filmRefsClean d x) : filmRefsClean (mergeFilmOne d k m) x := by
  cases hg : getFilm d m with
  | none => rw [mergeFilmOne_unchanged_of_none d k m hg]; exact h
  | some f0 =>
    refine ⟨?_, ?_, ?_⟩
    · intro s hs
      simp only [mergeFilmOne, hg] at hs
      rcases List.mem_map.mp hs with ⟨s0, hs0, rfl⟩
      have hs0mem : s0 ∈ d.screenings := (List.mem_filter.mp hs0).1
      by_cases hm : s0.filmId == m
      · rw [if_pos hm]; simpa using (Ne.symm hx)
      · rw [if_neg hm]; exact h.1 s0 hs0mem
    · intro s hs
      simp only [mergeFilmOne, hg] at hs
      rcases List.mem_map.mp hs with ⟨s0, hs0, rfl⟩
      by_cases hm : s0.filmId == m
      · rw [if_pos hm]; simpa using (Ne.symm hx)
      · rw [if_neg hm]; exact h.2.1 s0 hs0
    · intro p hp
      simp only [mergeFilmOne, hg] at hp
      have hp1 := (List.mem_filter.mp hp).1
      rcases fpCopyFromFilm_mem d.filmPerson k m p hp1 with h2 | h2
      · exact h.2.2 p h2
      · rw [h2]; exact Ne.symm hx

theorem mergeFilmOne_gone_preserve (d : DB) (k m x : Nat) (h : filmGone d x) :
    filmGone (mergeFilmOne d k m) x := by
  intro f hf
  rw [mergeFilmOne_films d k m] at hf
  exact h f (List.mem_filter.mp hf).1

theorem mergeFilmOne_present (d : DB) (k m x : Nat) (hxm : x ≠ m)
    (h : ∃ f ∈ d.films, f.id = x) : ∃ f ∈ (mergeFilmOne d k m).films, f.id = x := by
  rcases h with ⟨f, hf, hid⟩
  refine ⟨f, ?_, hid⟩
  rw [mergeFilmOne_films d k m]
  refine List.mem_filter.mpr ⟨hf, ?_⟩
  simp [hid, hxm]

theorem mergeFilmOne_films_sublist (d : DB) (k m : Nat) :
    (mergeFilmOne d k m).films.Sublist d.films := by
  rw [mergeFilmOne_films d k m]
  exact List.filter_sublist d.films

theorem mergeFilmFold_preserve (k x : Nat) (hx : x ≠ k) :
    ∀ (mids : List Nat) (d : DB), filmRefsClean d x ∧ filmGone d x →
      filmRefsClean (mids.foldl (fun d mid => mergeFilmOne d k mid) d) x ∧
      filmGone (mids.foldl (fun d mid => mergeFilmOne d k mid) d) x := by
  intro mids
  induction mids with
  | nil => intro d h; exact h
  | cons m mids ih =>
    intro d h
    rw [List.foldl_cons]
    exact ih (mergeFilmOne d k m)
      ⟨mergeFilmOne_preserve d k m x hx h.1, mergeFilmOne_gone_preserve d k m x h.2⟩

theorem mergeFilmFold_sublist (k : Nat) :
    ∀ (mids : List Nat) (d : DB),
      (mids.foldl (fun d mid => mergeFilmOne d k mid) d).films.Sublist d.films := by
  intro mids
  induction mids with
  | nil => intro d; exact List.Sublist.refl _
  | cons m mids ih =>
    intro d
    rw [List.foldl_cons]
    exact (ih (mergeFilmOne d k m)).trans (mergeFilmOne_films_sublist d k m)

theorem mergeFilmFold_present (k : Nat) :
    ∀ (mids : List Nat) (d : DB), k ∉ mids → (∃ f ∈ d.films, f.id = k) →
      ∃ f ∈ (mids.foldl (fun d mid => mergeFilmOne d k mid) d).films, f.id = k := by
  intro mids
  induction mids with
  | nil => intro d _ h; exact h
  | cons m mids ih =>
    intro d hk h
    rw [List.foldl_cons]
    exact ih (mergeFilmOne d k m) (fun hc => hk (List.mem_cons_of_mem m hc))
      (mergeFilmOne_present d k m k (fun he => hk (he ▸ List.mem_cons_self m mids)) h)

theorem mergeFilmFold_clean (k : Nat) :
    ∀ (mids : List Nat) (d : DB), k ∉ mids →
      (∀ m ∈ mids, (∃ f ∈ d.films, f.id = m) ∨ (filmRefsClean d m ∧ filmGone d m)) →
      ∀ m ∈ mids,
        filmRefsClean (mids.foldl (fun d mid => mergeFilmOne d k mid) d) m ∧
        filmGone (mids.foldl (fun d mid => mergeFilmOne d k mid) d) m := by
  intro mids
  induction mids with
  | nil => intro d _ _ m hm; exact absurd hm (List.not_mem_nil m)
  | cons m0 mids ih =>
    intro d hk hpre m hm
    have hkm0 : k ≠ m0 := fun he => hk (he ▸ List.mem_cons_self m0 mids)
    have hknotin : k ∉ mids := fun hc => hk (List.mem_cons_of_mem m0 hc)
    have hstep : filmRefsClean (mergeFilmOne d k m0) m0 ∧ filmGone (mergeFilmOne d k m0) m0 :=
      mergeFilmOne_clean d k m0 hkm0 (hpre m0 (List.mem_cons_self m0 mids))
    have hpre2 : ∀ m2 ∈ mids,
        (∃ f ∈ (mergeFilmOne d k m0).films, f.id = m2) ∨
        (filmRefsClean (mergeFilmOne d k m0) m2 ∧ filmGone (mergeFilmOne d k m0) m2) := by
      intro m2 hm2
      have hm2k : m2 ≠ k := fun he => hknotin (he ▸ hm2)
      by_cases hm2m0 : m2 = m0
      · exact Or.inr (hm2m0 ▸ hstep)
      · rcases hpre m2 (List.mem_cons_of_mem m0 hm2) with h | h
        · exact Or.inl (mergeFilmOne_present d k m0 m2 hm2m0 h)
        · exact Or.inr ⟨mergeFilmOne_preserve d k m0 m2 hm2k h.1,
            mergeFilmOne_gone_preserve d k m0 m2 h.2⟩
    rw [List.foldl_cons]
    rcases List.mem_cons.mp hm with he | hm2
    · subst he
      have hmk : m ≠ k := fun he2 => hkm0 (he2.symm)
      exact mergeFilmFold_preserve k m hmk mids (mergeFilmOne d k m) hstep
    · exact ih (mergeFilmOne d k m0) hknotin hpre2 m hm2



theorem key_count_one {α : Type} (idf : α → Nat) (l : List α) (keep : Nat)
    (hnd : (l.map idf).Nodup) (hmem : keep ∈ l.map idf) :
    (l.filter (fun f => idf f == keep)).length = 1 := by
  rw [← List.countP_eq_length_filter]
  have h1 : List.countP (fun n => n == keep) (l.map idf)
      = List.countP ((fun n => n == keep) ∘ idf) l := List.countP_map _ _ _
  have h2 : (l.map idf).count keep = 1 := List.count_eq_one_of_mem hnd hmem
  have h3 : (l.map idf).count keep = List.countP (fun n => n == keep) (l.map idf) := rfl
  rw [h3, h1] at h2
  exact h2

theorem mergePersonOne_persons (d : DB) (k m : Nat) :
    (mergePersonOne d k m).persons = d.persons.filter (fun p => !(p.id == m)) := rfl

theorem mergePersonOne_clean (d : DB) (k m : Nat) :
    personRefsClean (mergePersonOne d k m) m ∧ personGone (mergePersonOne d k m) m := by
  constructor
  · intro p hp
    have := (List.mem_filter.mp hp).2
    simpa using this
  · intro q hq
    have := (List.mem_filter.mp hq).2
    simpa using this

theorem mergePersonOne_preserve (d : DB) (k m x : Nat) (hx : x ≠ k)
    (h : personRefsClean d x) : personRefsClean (mergePersonOne d k m) x := by
  intro p hp
  have hp1 := (List.mem_filter.mp hp).1
  rcases fpCopyFromPerson_mem d.filmPerson k m p hp1 with h2 | h2
  · exact h p h2
  · rw [h2]; exact Ne.symm hx

theorem mergePersonOne_gone_preserve (d : DB) (k m x : Nat) (h : personGone d x) :
    personGone (mergePersonOne d k m) x := by
  intro q hq
  exact h q (List.mem_filter.mp hq).1

theorem mergePersonOne_present (d : DB) (k m x : Nat) (hxm : x ≠ m)
    (h : ∃ p ∈ d.persons, p.id = x) : ∃ p ∈ (mergePersonOne d k m).persons, p.id = x := by
  rcases h with ⟨p, hp, hid⟩
  refine ⟨p, ?_, hid⟩
  rw [mergePersonOne_persons]
  refine List.mem_filter.mpr ⟨hp, ?_⟩
  simp [hid, hxm]

theorem mergePersonOne_sublist (d : DB) (k m : Nat) :
    (mergePersonOne d k m).persons.Sublist d.persons := by
  rw [mergePersonOne_persons]
  exact List.filter_sublist d.persons

theorem mergePersonFold_preserve (k x : Nat) (hx : x ≠ k) :
    ∀ (mids : List Nat) (d : DB), personRefsClean d x ∧ personGone d x →
      personRefsClean (mids.foldl (fun d mid => mergePersonOne d k mid) d) x ∧
      personGone (mids.foldl (fun d mid => mergePersonOne d k mid) d) x := by
  intro mids
  induction mids with
  | nil => intro d h; exact h
  | cons m mids ih =>
    intro d h
    rw [List.foldl_cons]
    exact ih (mergePersonOne d k m)
      ⟨mergePersonOne_preserve d k m x hx h.1, mergePersonOne_gone_preserve d k m x h.2⟩

theorem mergePersonFold_clean (k : Nat) :
    ∀ (mids : List Nat) (d : DB), k ∉ mids → ∀ m ∈ mids,
      personRefsClean (mids.foldl (fun d mid => mergePersonOne d k mid) d) m ∧
      personGone (mids.foldl (fun d mid => mergePersonOne d k mid) d) m := by
  intro mids
  induction mids with
  | nil => intro d _ m hm; exact absurd hm (List.not_mem_nil m)
  | cons m0 mids ih =>
    intro d hk m hm
    have hknotin : k ∉ mids := fun hc => hk (List.mem_cons_of_mem m0 hc)
    rw [List.foldl_cons]
    rcases List.mem_cons.mp hm with he | hm2
    · subst he
      have hmk : m ≠ k := fun he2 => hk (he2 ▸ List.mem_cons_self m mids)
      exact mergePersonFold_preserve k m hmk mids (mergePersonOne d k m)
        (mergePersonOne_clean d k m)
    · exact ih (mergePersonOne d k m0) hknotin m hm2

theorem mergePersonFold_present (k : Nat) :
    ∀ (mids : List Nat) (d : DB), k ∉ mids → (∃ p ∈ d.persons, p.id = k) →
      ∃ p ∈ (mids.foldl (fun d mid => mergePersonOne d k mid) d).persons, p.id = k := by
  intro mids
  induction mids with
  | nil => intro d _ h; exact h
  | cons m mids ih =>
    intro d hk h
    rw [List.foldl_cons]
    exact ih (mergePersonOne d k m) (fun hc => hk (List.mem_cons_of_mem m hc))
      (mergePersonOne_present d k m k (fun he => hk (he ▸ List.mem_cons_self m mids)) h)

theorem mergePersonFold_sublist (k : Nat) :
    ∀ (mids : List Nat) (d : DB),
      (mids.foldl (fun d mid => mergePersonOne d k mid) d).persons.Sublist d.persons := by
  intro mids
  induction mids with
  | nil => intro d; exact List.Sublist.refl _
  | cons m mids ih =>
    intro d
    rw [List.foldl_cons]
    exact (ih (mergePersonOne d k m)).trans (mergePersonOne_sublist d k m)

theorem enhanceKeptPerson_fields (d : DB) (k : Nat) (kd : Option PersonRow) (ids : List Nat) :
    (enhanceKeptPerson d k kd ids).filmPerson = d.filmPerson ∧
    (enhanceKeptPerson d k kd ids).persons.map (fun p => p.id)
      = d.persons.map (fun p => p.id) := by
  have hmap : ∀ (ps : List PersonRow) (g : PersonRow → PersonRow),
      (∀ p, (g p).id = p.id) → (ps.map g).map (fun p => p.id) = ps.map (fun p => p.id) := by
    intro ps g hg
    rw [List.map_map]
    exact List.map_congr_left (fun p _ => hg p)
  unfold enhanceKeptPerson
  dsimp only
  split_ifs with h1 h2 h3 <;> constructor <;> try rfl
  · refine (hmap _ _ ?_).trans (hmap _ _ ?_) <;>
      (intro p; by_cases hp : p.id == k <;> simp [hp])
  · refine hmap _ _ ?_
    intro p; by_cases hp : p.id == k <;> simp [hp]
  · refine hmap _ _ ?_
    intro p; by_cases hp : p.id == k <;> simp [hp]

theorem gone_iff_not_mem_map {α : Type} (idf : α → Nat) (l : List α) (x : Nat) :
    (∀ a ∈ l, idf a ≠ x) ↔ x ∉ l.map idf := by
  constructor
  · intro h hx
    rcases List.mem_map.mp hx with ⟨a, ha, he⟩
    exact h a ha he
  · intro h a ha he
    exact h (List.mem_map.mpr ⟨a, ha, he⟩)

/-- C1: a non-dry-run film or person merge leaves exactly one row of the
duplicate group (the kept id) in the dimension table, and leaves no
film_person, screening or stg_screening row referencing a merged-away id.
Hypotheses: the kept id exists, is not among the losers, the loser film ids
exist (the discovery query only groups existing rows), and dimension ids
are unique (the primary key). -/
theorem c1_merge_group_invariants :
    (∀ (db : DB) (keepId : Nat) (mergeIds : List Nat),
      (∃ f ∈ db.films, f.id = keepId) → keepId ∉ mergeIds →
      (∀ m ∈ mergeIds, ∃ f ∈ db.films, f.id = m) →
      (db.films.map (fun f => f.id)).Nodup →
      ((merge_film_group db keepId mergeIds).films.filter
        (fun f => f.id == keepId || mergeIds.contains f.id)).length = 1 ∧
      (∃ f ∈ (merge_film_group db keepId mergeIds).films, f.id = keepId) ∧
      (∀ m ∈ mergeIds, filmRefsClean (merge_film_group db keepId mergeIds) m ∧
        filmGone (merge_film_group db keepId mergeIds) m)) ∧
    (∀ (db : DB) (keepId : Nat) (mergeIds : List Nat),
      (∃ p ∈ db.persons, p.id = keepId) → keepId ∉ mergeIds →
      (db.persons.map (fun p => p.id)).Nodup →
      ((merge_persons db keepId mergeIds).persons.filter
        (fun p => p.id == keepId || mergeIds.contains p.id)).length = 1 ∧
      (∃ p ∈ (merge_persons db keepId mergeIds).persons, p.id = keepId) ∧
      (∀ m ∈ mergeIds, personRefsClean (merge_persons db keepId mergeIds) m ∧
        personGone (merge_persons db keepId mergeIds) m)) := by
  constructor
  · intro db keepId mergeIds hkeep hnin hex hnodup
    by_cases hempty : mergeIds.isEmpty = true
    · have hml : mergeIds = [] := List.isEmpty_iff.mp hempty
      subst hml
      have hres : merge_film_group db keepId [] = db := by
        unfold merge_film_group
        rfl
      rw [hres]
      refine ⟨?_, hkeep, fun m hm => absurd hm (List.not_mem_nil m)⟩
      have hcongr : ∀ f ∈ db.films,
          (f.id == keepId || ([] : List Nat).contains f.id) = (f.id == keepId) := by
        intro f _
        simp [List.contains]
      rw [List.filter_congr hcongr]
      rcases hkeep with ⟨f, hf, hid⟩
      exact key_count_one (fun f => f.id) db.films keepId hnodup
        (List.mem_map.mpr ⟨f, hf, hid⟩)
    · rcases getFilm_isSome_of_mem db keepId hkeep with ⟨f0, hf0⟩
      have hres : merge_film_group db keepId mergeIds
          = mergeIds.foldl (fun d mid => mergeFilmOne d keepId mid) db := by
        unfold merge_film_group
        rw [if_neg hempty, hf0]
      rw [hres]
      have hpres := mergeFilmFold_present keepId mergeIds db hnin hkeep
      have hclean := mergeFilmFold_clean keepId mergeIds db hnin
        (fun m hm => Or.inl (hex m hm))
      refine ⟨?_, hpres, hclean⟩
      have hnodup2 : ((mergeIds.foldl (fun d mid => mergeFilmOne d keepId mid) db).films.map
          (fun f => f.id)).Nodup :=
        List.Nodup.sublist (List.Sublist.map _ (mergeFilmFold_sublist keepId mergeIds db)) hnodup
      have hcongr : ∀ f ∈ (mergeIds.foldl (fun d mid => mergeFilmOne d keepId mid) db).films,
          (f.id == keepId || mergeIds.contains f.id) = (f.id == keepId) := by
        intro f hf
        have hcontains : mergeIds.contains f.id = false := by
          by_contra hb
          have hmem : f.id ∈ mergeIds := by
            have : mergeIds.contains f.id = true := by
              cases hcase : mergeIds.contains f.id with
              | true => rfl
              | false => exact absurd hcase hb
            simpa using this
          exact (hclean f.id hmem).2 f hf rfl
        rw [hcontains, Bool.or_false]
      rw [List.filter_congr hcongr]
      rcases hpres with ⟨f, hf, hid⟩
      exact key_count_one (fun f : FilmRow => f.id) _ keepId hnodup2 (List.mem_map.mpr ⟨f, hf, hid⟩)
  · intro db keepId mergeIds hkeep hnin hnodup
    by_cases hempty : mergeIds.isEmpty = true
    · have hml : mergeIds = [] := List.isEmpty_iff.mp hempty
      subst hml
      have hres : merge_persons db keepId [] = db := by
        unfold merge_persons
        rfl
      rw [hres]
      refine ⟨?_, hkeep, fun m hm => absurd hm (List.not_mem_nil m)⟩
      have hcongr : ∀ p ∈ db.persons,
          (p.id == keepId || ([] : List Nat).contains p.id) = (p.id == keepId) := by
        intro p _
        simp [List.contains]
      rw [List.filter_congr hcongr]
      rcases hkeep with ⟨p, hp, hid⟩
      exact key_count_one (fun p => p.id) db.persons keepId hnodup
        (List.mem_map.mpr ⟨p, hp, hid⟩)
    · have hres : merge_persons db keepId mergeIds
          = enhanceKeptPerson
              (mergeIds.foldl (fun d mid => mergePersonOne d keepId mid) db)
              keepId (getPerson db keepId) (keepId :: mergeIds) := by
        unfold merge_persons
        rw [if_neg hempty]
      have hfields := enhanceKeptPerson_fields
        (mergeIds.foldl (fun d mid => mergePersonOne d keepId mid) db)
        keepId (getPerson db keepId) (keepId :: mergeIds)
      rw [hres]
      have hclean1 := mergePersonFold_clean keepId mergeIds db hnin
      have hpres1 := mergePersonFold_present keepId mergeIds db hnin hkeep
      have hnodup1 : ((mergeIds.foldl (fun d mid => mergePersonOne d keepId mid) db).persons.map
          (fun p => p.id)).Nodup :=
        List.Nodup.sublist (List.Sublist.map _ (mergePersonFold_sublist keepId mergeIds db))
          hnodup
      have hgone2 : ∀ m ∈ mergeIds,
          personGone (enhanceKeptPerson
            (mergeIds.foldl (fun d mid => mergePersonOne d keepId mid) db)
            keepId (getPerson db keepId) (keepId :: mergeIds)) m := by
        intro m hm
        have h1 : m ∉ (mergeIds.foldl (fun d mid => mergePersonOne d keepId mid) db).persons.map
            (fun p => p.id) := by
          rw [← gone_iff_not_mem_map (fun p : PersonRow => p.id)]
          exact (hclean1 m hm).2
        have h2 : m ∉ (enhanceKeptPerson
            (mergeIds.foldl (fun d mid => mergePersonOne d keepId mid) db)
            keepId (getPerson db keepId) (keepId :: mergeIds)).persons.map (fun p => p.id) := by
          rw [hfields.2]; exact h1
        show ∀ q ∈ (enhanceKeptPerson
          (mergeIds.foldl (fun d mid => mergePersonOne d keepId mid) db)
          keepId (getPerson db keepId) (keepId :: mergeIds)).persons, q.id ≠ m
        rw [gone_iff_not_mem_map (fun p : PersonRow => p.id)]
        exact h2
      refine ⟨?_, ?_, ?_⟩
      · have hnodup2 : ((enhanceKeptPerson
            (mergeIds.foldl (fun d mid => mergePersonOne d keepId mid) db)
            keepId (getPerson db keepId)
            (keepId :: mergeIds)).persons.map (fun p => p.id)).Nodup := by
          rw [hfields.2]; exact hnodup1
        have hcongr : ∀ p ∈ (enhanceKeptPerson
            (mergeIds.foldl (fun d mid => mergePersonOne d keepId mid) db)
            keepId (getPerson db keepId)
            (keepId :: mergeIds)).persons,
            (p.id == keepId || mergeIds.contains p.id) = (p.id == keepId) := by
          intro p hp
          have hcontains : mergeIds.contains p.id = false := by
            by_contra hb
            have hmem : p.id ∈ mergeIds := by
              have : mergeIds.contains p.id = true := by
                cases hcase : mergeIds.contains p.id with
                | true => rfl
                | false => exact absurd hcase hb
              simpa using this
            exact hgone2 p.id hmem p hp rfl
          rw [hcontains, Bool.or_false]
        rw [List.filter_congr hcongr]
        have hmm : keepId ∈ (enhanceKeptPerson
            (mergeIds.foldl (fun d mid => mergePersonOne d keepId mid) db)
            keepId (getPerson db keepId)
            (keepId :: mergeIds)).persons.map (fun p => p.id) := by
          rw [hfields.2]
          rcases hpres1 with ⟨p, hp, hid⟩
          exact List.mem_map.mpr ⟨p, hp, hid⟩
        exact key_count_one (fun p : PersonRow => p.id) _ keepId hnodup2 hmm
      · have hmm : keepId ∈ (enhanceKeptPerson
            (mergeIds.foldl (fun d mid => mergePersonOne d keepId mid) db)
            keepId (getPerson db keepId)
            (keepId :: mergeIds)).persons.map (fun p => p.id) := by
          rw [hfields.2]
          rcases hpres1 with ⟨p, hp, hid⟩
          exact List.mem_map.mpr ⟨p, hp, hid⟩
        rcases List.mem_map.mp hmm with ⟨p, hp, hid⟩
        exact ⟨p, hp, hid⟩
      · intro m hm
        refine ⟨?_, hgone2 m hm⟩
        show ∀ p ∈ (enhanceKeptPerson
          (mergeIds.foldl (fun d mid => mergePersonOne d keepId mid) db)
          keepId (getPerson db keepId) (keepId :: mergeIds)).filmPerson, p.personId ≠ m
        rw [hfields.1]
        exact (hclean1 m hm).1

theorem c1_witness :
    ((merge_film_group dbC1 1 [2]).films.filter
      (fun f => f.id == 1 || [2].contains f.id)).length = 1 :=
  (c1_merge_group_invariants.1 dbC1 1 [2] (by decide) (by decide) (by decide) (by decide)).1

theorem count_repoint (l : List Nat) (keep m : Nat) (hne : keep ≠ m) :
    (l.map (fun n => if n == m then keep else n)).count keep
      = l.count keep + l.count m := by
  induction l with
  | nil => rfl
  | cons n l ih =>
    simp only [List.map_cons, List.count_cons, ih]
    by_cases hm : n = m
    · subst hm
      simp [Ne.symm hne]
      omega
    · simp only [beq_iff_eq, if_neg hm]
      by_cases hk : n = keep
      · simp [hk]
        omega
      · simp [hk, hm]

theorem count_repoint_other (l : List Nat) (keep m x : Nat) (hxk : x ≠ keep) (hxm : x ≠ m) :
    (l.map (fun n => if n == m then keep else n)).count x = l.count x := by
  induction l with
  | nil => rfl
  | cons n l ih =>
    simp only [List.map_cons, List.count_cons, ih]
    by_cases hm : n = m
    · subst hm
      simp [Ne.symm hxk, Ne.symm hxm]
    · simp only [beq_iff_eq, if_neg hm]

theorem length_filter_eq_count {α : Type} (fid : α → Nat) (l : List α) (x : Nat) :
    (l.filter (fun a => fid a == x)).length = (l.map fid).count x := by
  rw [← List.countP_eq_length_filter]
  have h := List.countP_map (fun n => n == x) fid l
  rw [List.count, h]
  rfl

theorem screeningDedupDelete_eq_self (l : List ScreeningRow) (keep m : Nat)
    (h : ∀ s ∈ l, s.filmId = m → ∀ t ∈ l, t.filmId = keep →
      ¬(t.cinemaId = s.cinemaId ∧ t.startAt = s.startAt)) :
    screeningDedupDelete l keep m = l := by
  unfold screeningDedupDelete
  rw [List.filter_eq_self]
  intro s hs
  by_cases hm : s.filmId = m
  · have hany : (l.any (fun k => k.filmId == keep && k.cinemaId == s.cinemaId &&
        k.startAt == s.startAt)) = false := by
      rw [List.any_eq_false]
      intro t ht
      by_cases htk : t.filmId = keep
      · have h2 := h s hs hm t ht htk
        intro hcontra
        simp only [Bool.and_eq_true, beq_iff_eq] at hcontra
        exact h2 ⟨hcontra.1.2, hcontra.2⟩
      · simp [htk]
    simp [hany]
  · simp [hm]

theorem scrKeys_repoint (l : List ScreeningRow) (keep m : Nat) (rem : List Nat) :
    ((l.map (fun s => if s.filmId == m then { s with filmId := keep } else s)).filter
        (fun s => (keep :: rem).contains s.filmId)).map (fun s => (s.cinemaId, s.startAt))
      = (l.filter (fun s => (keep :: m :: rem).contains s.filmId)).map
          (fun s => (s.cinemaId, s.startAt)) := by
  induction l with
  | nil => rfl
  | cons s l ih =>
    rw [List.map_cons]
    by_cases hm : s.filmId = m
    · have hs2 : (if s.filmId == m then { s with filmId := keep } else s)
          = { s with filmId := keep } := if_pos (by simpa using hm)
      rw [hs2]
      have hp1 : ((keep :: rem).contains ({ s with filmId := keep } : ScreeningRow).filmId)
          = true := by simp
      have hp2 : ((keep :: m :: rem).contains s.filmId) = true := by simp [hm]
      rw [List.filter_cons, List.filter_cons, if_pos hp1, if_pos hp2]
      rw [List.map_cons, List.map_cons, ih]
    · have hs2 : (if s.filmId == m then { s with filmId := keep } else s) = s :=
        if_neg (by simpa using hm)
      rw [hs2]
      by_cases hg : ((keep :: rem).contains s.filmId) = true
      · have hp2 : ((keep :: m :: rem).contains s.filmId) = true := by
          simp only [List.contains_cons, Bool.or_eq_true] at hg ⊢
          rcases hg with h | h
          · exact Or.inl h
          · exact Or.inr (Or.inr h)
        rw [List.filter_cons, List.filter_cons, if_pos hg, if_pos hp2]
        rw [List.map_cons, List.map_cons, ih]
      · have hp2 : ¬(((keep :: m :: rem).contains s.filmId) = true) := by
          simp only [List.contains_cons, Bool.or_eq_true] at hg ⊢
          intro hc
          rcases hc with h | h | h
          · exact hg (Or.inl h)
          · exact hm (by simpa using h)
          · exact hg (Or.inr h)
        rw [List.filter_cons, List.filter_cons, if_neg hg, if_neg hp2]
        exact ih

theorem repoint_map_fid_scr (l : List ScreeningRow) (keep m : Nat) :
    ((l.map (fun s => if s.filmId == m then { s with filmId := keep } else s)).map
        (fun s => s.filmId))
      = (l.map (fun s => s.filmId)).map (fun n => if n == m then keep else n) := by
  rw [List.map_map, List.map_map]
  refine List.map_congr_left ?_
  intro s _
  by_cases hm : s.filmId == m <;> simp [Function.comp, hm]

theorem repoint_map_fid_stg (l : List StgRow) (keep m : Nat) :
    ((l.map (fun s => if s.filmId == m then { s with filmId := keep } else s)).map
        (fun s => s.filmId))
      = (l.map (fun s => s.filmId)).map (fun n => if n == m then keep else n) := by
  rw [List.map_map, List.map_map]
  refine List.map_congr_left ?_
  intro s _
  by_cases hm : s.filmId == m <;> simp [Function.comp, hm]

theorem fpCopyFromFilm_all_inserted (fp : List FPRow) (k m : Nat)
    (h1 : ∀ r ∈ fp, r.filmId = m → ∀ q ∈ fp, q.filmId = k →
      ¬(q.personId = r.personId ∧ q.role = r.role))
    (h2 : List.Pairwise (fun a b : FPRow => ¬(a.personId = b.personId ∧ a.role = b.role))
      (fp.filter (fun r => r.filmId == m))) :
    fpCopyFromFilm fp k m
      = fp ++ (fp.filter (fun r => r.filmId == m)).map
          (fun r => (⟨k, r.personId, r.role⟩ : FPRow)) := by
  unfold fpCopyFromFilm
  have main : ∀ (l acc : List FPRow),
      (∀ r ∈ l, ∀ q ∈ acc, q.filmId = k → ¬(q.personId = r.personId ∧ q.role = r.role)) →
      List.Pairwise (fun a b : FPRow => ¬(a.personId = b.personId ∧ a.role = b.role)) l →
      l.foldl (fun acc r =>
        if acc.any (fun q => q.filmId == k && q.personId == r.personId && q.role == r.role)
        then acc else acc ++ [⟨k, r.personId, r.role⟩]) acc
        = acc ++ l.map (fun r => (⟨k, r.personId, r.role⟩ : FPRow)) := by
    intro l
    induction l with
    | nil => intro acc _ _; simp
    | cons a l ih =>
      intro acc hacc hp
      have hany : (acc.any
          (fun q => q.filmId == k && q.personId == a.personId && q.role == a.role)) = false := by
        rw [List.any_eq_false]
        intro q hq
        intro hcontra
        simp only [Bool.and_eq_true, beq_iff_eq] at hcontra
        exact hacc a (List.mem_cons_self a l) q hq hcontra.1.1 ⟨hcontra.1.2, hcontra.2⟩
      rw [List.foldl_cons, if_neg (by simp [hany])]
      have hacc2 : ∀ r ∈ l, ∀ q ∈ acc ++ [(⟨k, a.personId, a.role⟩ : FPRow)],
          q.filmId = k → ¬(q.personId = r.personId ∧ q.role = r.role) := by
        intro r hr q hq hqk
        rcases List.mem_append.mp hq with h | h
        · exact hacc r (List.mem_cons_of_mem a hr) q h hqk
        · have he : q = (⟨k, a.personId, a.role⟩ : FPRow) := by simpa using h
          subst he
          exact List.rel_of_pairwise_cons hp hr
      rw [ih (acc ++ [(⟨k, a.personId, a.role⟩ : FPRow)]) hacc2 (List.Pairwise.of_cons hp)]
      simp
  exact main _ fp
    (fun r hr q hq hqk => h1 r (List.mem_filter.mp hr).1
      (by simpa using (List.mem_filter.mp hr).2) q hq hqk) h2

theorem mergeFilmOne_counts (d : DB) (keep m : Nat) (hkm : keep ≠ m)
    (hm_ex : ∃ f ∈ d.films, f.id = m)
    (hscr : ∀ s ∈ d.screenings, s.filmId = m → ∀ t ∈ d.screenings, t.filmId = keep →
      ¬(t.cinemaId = s.cinemaId ∧ t.startAt = s.startAt))
    (hfp1 : ∀ r ∈ d.filmPerson, r.filmId = m → ∀ q ∈ d.filmPerson, q.filmId = keep →
      ¬(q.personId = r.personId ∧ q.role = r.role))
    (hfp2 : List.Pairwise (fun a b : FPRow => ¬(a.personId = b.personId ∧ a.role = b.role))
      (d.filmPerson.filter (fun r => r.filmId == m))) :
    count_film_references (mergeFilmOne d keep m) keep
      = count_film_references d keep + count_film_references d m ∧
    ∀ x, x ≠ keep → x ≠ m →
      count_film_references (mergeFilmOne d keep m) x = count_film_references d x := by
  rcases getFilm_isSome_of_mem d m hm_ex with ⟨f0, hf0⟩
  have hscreq : (mergeFilmOne d keep m).screenings
      = d.screenings.map (fun s => if s.filmId == m then { s with filmId := keep } else s) := by
    simp only [mergeFilmOne, hf0]
    rw [screeningDedupDelete_eq_self d.screenings keep m hscr]
  have hstgeq : (mergeFilmOne d keep m).stg
      = d.stg.map (fun s => if s.filmId == m then { s with filmId := keep } else s) := by
    simp only [mergeFilmOne, hf0]
  have hfpeq : (mergeFilmOne d keep m).filmPerson
      = (d.filmPerson.filter (fun r => !(r.filmId == m)))
        ++ (d.filmPerson.filter (fun r => r.filmId == m)).map
            (fun r => (⟨keep, r.personId, r.role⟩ : FPRow)) := by
    simp only [mergeFilmOne, hf0]
    rw [fpCopyFromFilm_all_inserted d.filmPerson keep m hfp1 hfp2]
    rw [List.filter_append]
    have hC : ((d.filmPerson.filter (fun r => r.filmId == m)).map
        (fun r => (⟨keep, r.personId, r.role⟩ : FPRow))).filter (fun r => !(r.filmId == m))
        = (d.filmPerson.filter (fun r => r.filmId == m)).map
            (fun r => (⟨keep, r.personId, r.role⟩ : FPRow)) := by
      rw [List.filter_eq_self]
      intro r hr
      rcases List.mem_map.mp hr with ⟨r0, _, rfl⟩
      simp [hkm]
    rw [hC]
  have hscr_count : ∀ x, screening_count (mergeFilmOne d keep m) x
      = ((d.screenings.map (fun s => s.filmId)).map
          (fun n => if n == m then keep else n)).count x := by
    intro x
    unfold screening_count
    rw [hscreq, length_filter_eq_count (fun s : ScreeningRow => s.filmId), repoint_map_fid_scr]
  have hstg_count : ∀ x, stg_screening_count (mergeFilmOne d keep m) x
      = ((d.stg.map (fun s => s.filmId)).map (fun n => if n == m then keep else n)).count x := by
    intro x
    unfold stg_screening_count
    rw [hstgeq, length_filter_eq_count (fun s : StgRow => s.filmId), repoint_map_fid_stg]
  have hfp_keep : film_person_count (mergeFilmOne d keep m) keep
      = film_person_count d keep + film_person_count d m := by
    unfold film_person_count
    rw [hfpeq, ← List.countP_eq_length_filter, List.countP_append]
    have e1 : List.countP (fun r => r.filmId == keep)
        (d.filmPerson.filter (fun r => !(r.filmId == m)))
        = List.countP (fun r => r.filmId == keep) d.filmPerson := by
      rw [List.countP_filter]
      refine List.countP_congr ?_
      intro r _
      constructor
      · intro h
        simp only [Bool.and_eq_true] at h
        exact h.1
      · intro h
        simp only [Bool.and_eq_true]
        refine ⟨h, ?_⟩
        have hx : r.filmId = keep := by simpa using h
        simp [hx, hkm]
    have e2 : List.countP (fun r => r.filmId == keep)
        ((d.filmPerson.filter (fun r => r.filmId == m)).map
          (fun r => (⟨keep, r.personId, r.role⟩ : FPRow)))
        = (d.filmPerson.filter (fun r => r.filmId == m)).length := by
      rw [List.countP_map]
      have : ∀ r ∈ d.filmPerson.filter (fun r => r.filmId == m),
          ((fun r : FPRow => r.filmId == keep) ∘
            (fun r => (⟨keep, r.personId, r.role⟩ : FPRow))) r = true := by
        intro r _; simp [Function.comp]
      calc List.countP ((fun r : FPRow => r.filmId == keep) ∘
            (fun r => (⟨keep, r.personId, r.role⟩ : FPRow)))
            (d.filmPerson.filter (fun r => r.filmId == m))
          = List.countP (fun _ => true) (d.filmPerson.filter (fun r => r.filmId == m)) := by
            refine List.countP_congr ?_
            intro r hr
            simp [Function.comp]
        _ = (d.filmPerson.filter (fun r => r.filmId == m)).length := by
            rw [List.countP_true]
    rw [e1, e2, List.countP_eq_length_filter]
  have hfp_other : ∀ x, x ≠ keep → x ≠ m →
      film_person_count (mergeFilmOne d keep m) x = film_person_count d x := by
    intro x hxk hxm
    unfold film_person_count
    rw [hfpeq, ← List.countP_eq_length_filter, List.countP_append]
    have e1 : List.countP (fun r => r.filmId == x)
        (d.filmPerson.filter (fun r => !(r.filmId == m)))
        = List.countP (fun r => r.filmId == x) d.filmPerson := by
      rw [List.countP_filter]
      refine List.countP_congr ?_
      intro r _
      constructor
      · intro h
        simp only [Bool.and_eq_true] at h
        exact h.1
      · intro h
        simp only [Bool.and_eq_true]
        refine ⟨h, ?_⟩
        have hx : r.filmId = x := by simpa using h
        simp [hx, hxm]
    have e2 : List.countP (fun r => r.filmId == x)
        ((d.filmPerson.filter (fun r => r.filmId == m)).map
          (fun r => (⟨keep, r.personId, r.role⟩ : FPRow))) = 0 := by
      rw [List.countP_map]
      calc List.countP ((fun r : FPRow => r.filmId == x) ∘
            (fun r => (⟨keep, r.personId, r.role⟩ : FPRow)))
            (d.filmPerson.filter (fun r => r.filmId == m))
          = List.countP (fun _ => false) (d.filmPerson.filter (fun r => r.filmId == m)) := by
            refine List.countP_congr ?_
            intro r hr
            simp [Function.comp, Ne.symm hxk]
        _ = 0 := by rw [List.countP_false]; rfl
    rw [e1, e2, List.countP_eq_length_filter]
    omega
  have e1 : ∀ x, screening_count d x = (d.screenings.map (fun s => s.filmId)).count x :=
    fun x => length_filter_eq_count (fun s : ScreeningRow => s.filmId) d.screenings x
  have e2 : ∀ x, stg_screening_count d x = (d.stg.map (fun s => s.filmId)).count x :=
    fun x => length_filter_eq_count (fun s : StgRow => s.filmId) d.stg x
  constructor
  · unfold count_film_references
    rw [hscr_count keep, hstg_count keep, hfp_keep, e1 keep, e1 m, e2 keep, e2 m]
    rw [count_repoint _ _ _ hkm, count_repoint _ _ _ hkm]
    omega
  · intro x hxk hxm
    unfold count_film_references
    rw [hscr_count x, hstg_count x, hfp_other x hxk hxm, e1 x, e2 x]
    rw [count_repoint_other _ _ _ _ hxk hxm, count_repoint_other _ _ _ _ hxk hxm]

theorem contains_of_head (x : Nat) (rem : List Nat) : (x :: rem).contains x = true := by
  simp

theorem contains_of_tail (x y : Nat) (rem : List Nat) (h : y ∈ rem) :
    (x :: rem).contains y = true := by
  simp only [List.contains_cons, Bool.or_eq_true, beq_iff_eq]
  exact Or.inr (by simpa using List.elem_eq_true_of_mem h)

theorem scr_collision_free_of_nodup (d : DB) (keep m : Nat) (mids : List Nat)
    (hm : m ∈ mids) (hkm : keep ≠ m)
    (hnd : (scrGroupKeys d (keep :: mids)).Nodup) :
    ∀ s ∈ d.screenings, s.filmId = m → ∀ t ∈ d.screenings, t.filmId = keep →
      ¬(t.cinemaId = s.cinemaId ∧ t.startAt = s.startAt) := by
  intro s hs hsm t ht htk hcoll
  have hsg : s ∈ d.screenings.filter (fun s => (keep :: mids).contains s.filmId) :=
    List.mem_filter.mpr ⟨hs, by rw [hsm]; exact contains_of_tail keep m mids hm⟩
  have htg : t ∈ d.screenings.filter (fun s => (keep :: mids).contains s.filmId) :=
    List.mem_filter.mpr ⟨ht, by rw [htk]; exact contains_of_head keep mids⟩
  have hnd2 : ((d.screenings.filter (fun s => (keep :: mids).contains s.filmId)).map
      (fun s => (s.cinemaId, s.startAt))).Nodup := hnd
  have hinj := List.inj_on_of_nodup_map hnd2
  have hts : t = s := hinj htg hsg (by rw [hcoll.1, hcoll.2])
  rw [hts, hsm] at htk
  exact hkm htk.symm

theorem fp_collision_free_of_nodup (d : DB) (keep m : Nat) (mids : List Nat)
    (hm : m ∈ mids) (hkm : keep ≠ m)
    (hnd : (fpGroupKeys d (keep :: mids)).Nodup) :
    ∀ r ∈ d.filmPerson, r.filmId = m → ∀ q ∈ d.filmPerson, q.filmId = keep →
      ¬(q.personId = r.personId ∧ q.role = r.role) := by
  intro r hr hrm q hq hqk hcoll
  have hrg : r ∈ d.filmPerson.filter (fun r => (keep :: mids).contains r.filmId) :=
    List.mem_filter.mpr ⟨hr, by rw [hrm]; exact contains_of_tail keep m mids hm⟩
  have hqg : q ∈ d.filmPerson.filter (fun r => (keep :: mids).contains r.filmId) :=
    List.mem_filter.mpr ⟨hq, by rw [hqk]; exact contains_of_head keep mids⟩
  have hnd2 : ((d.filmPerson.filter (fun r => (keep :: mids).contains r.filmId)).map
      (fun r => (r.personId, r.role))).Nodup := hnd
  have hinj := List.inj_on_of_nodup_map hnd2
  have hqr : q = r := hinj hqg hrg (by rw [hcoll.1, hcoll.2])
  rw [hqr, hrm] at hqk
  exact hkm hqk.symm

theorem fp_m_pairwise_of_nodup (d : DB) (keep m : Nat) (mids : List Nat)
    (hm : m ∈ mids)
    (hnd : (fpGroupKeys d (keep :: mids)).Nodup) :
    List.Pairwise (fun a b : FPRow => ¬(a.personId = b.personId ∧ a.role = b.role))
      (d.filmPerson.filter (fun r => r.filmId == m)) := by
  have hsub : (d.filmPerson.filter (fun r => r.filmId == m)).Sublist
      (d.filmPerson.filter (fun r => (keep :: mids).contains r.filmId)) := by
    refine List.monotone_filter_right _ ?_
    intro r hr
    have hrm : r.filmId = m := by simpa using hr
    rw [hrm]
    exact contains_of_tail keep m mids hm
  have hnd2 : ((d.filmPerson.filter (fun r => (keep :: mids).contains r.filmId)).map
      (fun r => (r.personId, r.role))).Nodup := hnd
  have hnd3 : ((d.filmPerson.filter (fun r => r.filmId == m)).map
      (fun r => (r.personId, r.role))).Nodup :=
    List.Nodup.sublist (List.Sublist.map _ hsub) hnd2
  have hp := (List.pairwise_map).mp hnd3
  refine hp.imp ?_
  intro a b hne hcontra
  exact hne (by rw [hcontra.1, hcontra.2])

theorem mergeFilmOne_scr_eq (d : DB) (keep m : Nat)
    (hm_ex : ∃ f ∈ d.films, f.id = m)
    (hscr : ∀ s ∈ d.screenings, s.filmId = m → ∀ t ∈ d.screenings, t.filmId = keep →
      ¬(t.cinemaId = s.cinemaId ∧ t.startAt = s.startAt)) :
    (mergeFilmOne d keep m).screenings
      = d.screenings.map (fun s => if s.filmId == m then { s with filmId := keep } else s) := by
  rcases getFilm_isSome_of_mem d m hm_ex with ⟨f0, hf0⟩
  simp only [mergeFilmOne, hf0]
  rw [screeningDedupDelete_eq_self d.screenings keep m hscr]

theorem mergeFilmOne_fp_eq (d : DB) (keep m : Nat) (hkm : keep ≠ m)
    (hm_ex : ∃ f ∈ d.films, f.id = m)
    (hfp1 : ∀ r ∈ d.filmPerson, r.filmId = m → ∀ q ∈ d.filmPerson, q.filmId = keep →
      ¬(q.personId = r.personId ∧ q.role = r.role))
    (hfp2 : List.Pairwise (fun a b : FPRow => ¬(a.personId = b.personId ∧ a.role = b.role))
      (d.filmPerson.filter (fun r => r.filmId == m))) :
    (mergeFilmOne d keep m).filmPerson
      = (d.filmPerson.filter (fun r => !(r.filmId == m)))
        ++ (d.filmPerson.filter (fun r => r.filmId == m)).map
            (fun r => (⟨keep, r.personId, r.role⟩ : FPRow)) := by
  rcases getFilm_isSome_of_mem d m hm_ex with ⟨f0, hf0⟩
  simp only [mergeFilmOne, hf0]
  rw [fpCopyFromFilm_all_inserted d.filmPerson keep m hfp1 hfp2]
  rw [List.filter_append]
  have hC : ((d.filmPerson.filter (fun r => r.filmId == m)).map
      (fun r => (⟨keep, r.personId, r.role⟩ : FPRow))).filter (fun r => !(r.filmId == m))
      = (d.filmPerson.filter (fun r => r.filmId == m)).map
          (fun r => (⟨keep, r.personId, r.role⟩ : FPRow)) := by
    rw [List.filter_eq_self]
    intro r hr
    rcases List.mem_map.mp hr with ⟨r0, _, rfl⟩
    simp [hkm]
  rw [hC]

theorem mergeFilmOne_scr_keys (d : DB) (keep m : Nat) (mids : List Nat)
    (hm_ex : ∃ f ∈ d.films, f.id = m)
    (hscr : ∀ s ∈ d.screenings, s.filmId = m → ∀ t ∈ d.screenings, t.filmId = keep →
      ¬(t.cinemaId = s.cinemaId ∧ t.startAt = s.startAt)) :
    scrGroupKeys (mergeFilmOne d keep m) (keep :: mids)
      = scrGroupKeys d (keep :: m :: mids) := by
  unfold scrGroupKeys
  rw [mergeFilmOne_scr_eq d keep m hm_ex hscr]
  exact scrKeys_repoint d.screenings keep m mids

theorem contains_tail_of_ne (keep m x : Nat) (rem : List Nat) (hxm : x ≠ m) :
    ((keep :: m :: rem).contains x) = ((keep :: rem).contains x) := by
  simp only [List.contains_cons]
  have : (x == m) = false := by simpa using hxm
  rw [this]
  simp

theorem mergeFilmOne_fp_keys_nodup (d : DB) (keep m : Nat) (mids : List Nat)
    (hkm : keep ≠ m)
    (hm_ex : ∃ f ∈ d.films, f.id = m)
    (hfp1 : ∀ r ∈ d.filmPerson, r.filmId = m → ∀ q ∈ d.filmPerson, q.filmId = keep →
      ¬(q.personId = r.personId ∧ q.role = r.role))
    (hfp2 : List.Pairwise (fun a b : FPRow => ¬(a.personId = b.personId ∧ a.role = b.role))
      (d.filmPerson.filter (fun r => r.filmId == m)))
    (hnd : (fpGroupKeys d (keep :: m :: mids)).Nodup) :
    (fpGroupKeys (mergeFilmOne d keep m) (keep :: mids)).Nodup := by
  unfold fpGroupKeys at hnd ⊢
  rw [mergeFilmOne_fp_eq d keep m hkm hm_ex hfp1 hfp2]
  rw [List.filter_append]
  have hCfull : ((d.filmPerson.filter (fun r => r.filmId == m)).map
      (fun r => (⟨keep, r.personId, r.role⟩ : FPRow))).filter
        (fun r => (keep :: mids).contains r.filmId)
      = (d.filmPerson.filter (fun r => r.filmId == m)).map
          (fun r => (⟨keep, r.personId, r.role⟩ : FPRow)) := by
    rw [List.filter_eq_self]
    intro r hr
    rcases List.mem_map.mp hr with ⟨r0, _, rfl⟩
    exact contains_of_head keep mids
  rw [hCfull]
  rw [List.filter_filter]
  have hA : d.filmPerson.filter
      (fun a => (keep :: mids).contains a.filmId && !(a.filmId == m))
      = (d.filmPerson.filter (fun r => (keep :: m :: mids).contains r.filmId)).filter
          (fun r => !(r.filmId == m)) := by
    rw [List.filter_filter]
    refine List.filter_congr ?_
    intro a _
    by_cases ham : a.filmId = m
    · simp [ham]
    · have h1 : (a.filmId == m) = false := by simpa using ham
      rw [contains_tail_of_ne keep m a.filmId mids ham, h1]
      simp
  have hB : (d.filmPerson.filter (fun r => r.filmId == m))
      = (d.filmPerson.filter (fun r => (keep :: m :: mids).contains r.filmId)).filter
          (fun r => !(!(r.filmId == m))) := by
    rw [List.filter_filter]
    refine List.filter_congr ?_
    intro a _
    by_cases ham : a.filmId = m
    · have h1 : (a.filmId == m) = true := by simpa using ham
      rw [h1]
      simp [ham]
    · have h1 : (a.filmId == m) = false := by simpa using ham
      rw [h1]
      simp
  have hCkeys : ((d.filmPerson.filter (fun r => r.filmId == m)).map
      (fun r => (⟨keep, r.personId, r.role⟩ : FPRow))).map (fun r => (r.personId, r.role))
      = (d.filmPerson.filter (fun r => r.filmId == m)).map (fun r => (r.personId, r.role)) := by
    rw [List.map_map]
    exact List.map_congr_left (fun r _ => rfl)
  rw [List.map_append, hCkeys, hA]
  rw [← List.map_append]
  have hperm : ((d.filmPerson.filter (fun r => (keep :: m :: mids).contains r.filmId)).filter
        (fun r => !(r.filmId == m))
      ++ d.filmPerson.filter (fun r => r.filmId == m)).Perm
      (d.filmPerson.filter (fun r => (keep :: m :: mids).contains r.filmId)) := by
    rw [hB]
    exact List.filter_append_perm _ _
  exact List.Perm.nodup (List.Perm.map _ hperm).symm hnd

theorem mergeFilmFold_refcounts (keep : Nat) :
    ∀ (mids : List Nat) (d : DB),
      keep ∉ mids → mids.Nodup →
      (∀ m ∈ mids, ∃ f ∈ d.films, f.id = m) →
      (scrGroupKeys d (keep :: mids)).Nodup →
      (fpGroupKeys d (keep :: mids)).Nodup →
      count_film_references (mids.foldl (fun d mid => mergeFilmOne d keep mid) d) keep
        = count_film_references d keep
          + (mids.map (fun m => count_film_references d m)).sum := by
  intro mids
  induction mids with
  | nil => intro d _ _ _ _ _; simp
  | cons m mids ih =>
    intro d hk hnd hex hscrK hfpK
    have hkm : keep ≠ m := fun he => hk (he ▸ List.mem_cons_self m mids)
    have hm_in : m ∈ m :: mids := List.mem_cons_self m mids
    have hm_ex := hex m hm_in
    have hndc := List.nodup_cons.mp hnd
    have hscr := scr_collision_free_of_nodup d keep m (m :: mids) hm_in hkm hscrK
    have hfp1 := fp_collision_free_of_nodup d keep m (m :: mids) hm_in hkm hfpK
    have hfp2 := fp_m_pairwise_of_nodup d keep m (m :: mids) hm_in hfpK
    have hcounts := mergeFilmOne_counts d keep m hkm hm_ex hscr hfp1 hfp2
    have hex2 : ∀ m2 ∈ mids, ∃ f ∈ (mergeFilmOne d keep m).films, f.id = m2 := by
      intro m2 hm2
      have hm2m : m2 ≠ m := fun he => hndc.1 (he ▸ hm2)
      exact mergeFilmOne_present d keep m m2 hm2m (hex m2 (List.mem_cons_of_mem m hm2))
    have hscrK2 : (scrGroupKeys (mergeFilmOne d keep m) (keep :: mids)).Nodup := by
      rw [mergeFilmOne_scr_keys d keep m mids hm_ex hscr]
      exact hscrK
    have hfpK2 := mergeFilmOne_fp_keys_nodup d keep m mids hkm hm_ex hfp1 hfp2 hfpK
    rw [List.foldl_cons]
    rw [ih (mergeFilmOne d keep m)
      (fun hc => hk (List.mem_cons_of_mem m hc)) hndc.2 hex2 hscrK2 hfpK2]
    have hsum : (mids.map (fun m2 => count_film_references (mergeFilmOne d keep m) m2)).sum
        = (mids.map (fun m2 => count_film_references d m2)).sum := by
      refine congrArg List.sum (List.map_congr_left ?_)
      intro m2 hm2
      have hm2k : m2 ≠ keep := fun he => hk (he ▸ List.mem_cons_of_mem m hm2)
      have hm2m : m2 ≠ m := fun he => hndc.1 (he ▸ hm2)
      exact hcounts.2 m2 hm2k hm2m
    rw [hsum, hcounts.1, List.map_cons, List.sum_cons]
    omega

/-- C4 (amended): for a duplicate film group whose screenings carry pairwise
distinct (cinema_id, start_at_utc) keys and whose film_person rows carry
pairwise distinct (person_id, role) keys — i.e. when the proactive
conflict-dedup of the merge has nothing to delete — the total reference
count of the kept film after merge_film_group equals the sum of the
pre-merge reference counts of the whole group.  (Without that hypothesis the
claim is false: colliding rows are deleted, see the counterexample.) -/
theorem c4_refcount_conservation_amended (db : DB) (keepId : Nat) (mergeIds : List Nat)
    (hkeep : ∃ f ∈ db.films, f.id = keepId)
    (hnin : keepId ∉ mergeIds)
    (hnd : mergeIds.Nodup)
    (hex : ∀ m ∈ mergeIds, ∃ f ∈ db.films, f.id = m)
    (hscr : (scrGroupKeys db (keepId :: mergeIds)).Nodup)
    (hfp : (fpGroupKeys db (keepId :: mergeIds)).Nodup) :
    count_film_references (merge_film_group db keepId mergeIds) keepId
      = count_film_references db keepId
        + (mergeIds.map (fun m => count_film_references db m)).sum := by
  by_cases hempty : mergeIds.isEmpty = true
  · have hml : mergeIds = [] := List.isEmpty_iff.mp hempty
    subst hml
    have hres : merge_film_group db keepId [] = db := by
      unfold merge_film_group
      rfl
    rw [hres]
    simp
  · rcases getFilm_isSome_of_mem db keepId hkeep with ⟨f0, hf0⟩
    have hres : merge_film_group db keepId mergeIds
        = mergeIds.foldl (fun d mid => mergeFilmOne d keepId mid) db := by
      unfold merge_film_group
      rw [if_neg hempty, hf0]
    rw [hres]
    exact mergeFilmFold_refcounts keepId mergeIds db hnin hnd hex hscr hfp

theorem c4_witness :
    count_film_references (merge_film_group dbC1 1 [2]) 1
      = count_film_references dbC1 1
        + (([2] : List Nat).map (fun m => count_film_references dbC1 m)).sum :=
  c4_refcount_conservation_amended dbC1 1 [2] (by decide) (by decide) (by decide)
    (by decide) (by decide) (by decide)

/-- C4 counterexample: in dbC4 the two films of the group have screenings at
the same (cinema_id, start_at_utc); merge_film_group deletes the loser
screening to protect the unique constraint, so the kept film ends with 1
reference while the pre-merge group total is 2. -/
theorem c4_counterexample :
    count_film_references (merge_film_group dbC4 1 [2]) 1 = 1 ∧
    count_film_references dbC4 1 + count_film_references dbC4 2 = 2 := by
  decide

theorem foldlM_ok {α σ : Type} (f : σ → α → Except String σ) :
    ∀ (l : List α) (s : σ), (∀ a ∈ l, ∀ s2, ∃ s3, f s2 a = .ok s3) →
      ∃ s4, l.foldlM f s = .ok s4 := by
  intro l
  induction l with
  | nil => intro s _; exact ⟨s, rfl⟩
  | cons a l ih =>
    intro s h
    rcases h a (List.mem_cons_self a l) s with ⟨s3, hs3⟩
    rcases ih s3 (fun a2 ha2 => h a2 (List.mem_cons_of_mem a ha2)) with ⟨s4, hs4⟩
    refine ⟨s4, ?_⟩
    rw [List.foldlM_cons, hs3]
    exact hs4

theorem ensure_person_ok (d : DB) (n : String) (h1 : n ≠ "")
    (h2 : normalize_person_name n ≠ "") :
    ∃ res, ensure_person d n none none = .ok res := by
  have hstrip : pyStripStr n ≠ "" := by
    intro he
    apply h2
    unfold normalize_person_name
    rw [if_pos]
    simp [he]
  unfold ensure_person
  rw [if_neg (by simp [h1, hstrip])]
  rw [if_neg (by simpa using h2)]
  simp only [pyTruthy, pyTruthyInt]
  cases d.persons.find? (fun p => p.normalizedName == some (normalize_person_name n)) with
  | none => exact ⟨_, rfl⟩
  | some p => exact ⟨_, rfl⟩

theorem link_directors_ok (db : DB) (filmId : Nat) (names : List String)
    (h : ∀ n ∈ names, norm_spaceStr n ≠ "" → normalize_person_name (norm_spaceStr n) ≠ "") :
    ∃ db2, link_directors db filmId names = .ok db2 := by
  unfold link_directors
  refine foldlM_ok _ _ db ?_
  intro n hn d2
  rcases List.mem_filter.mp hn with ⟨hn1, hn2⟩
  rcases List.mem_map.mp hn1 with ⟨x, hx, rfl⟩
  have hne : norm_spaceStr x ≠ "" := by simpa using hn2
  rcases ensure_person_ok d2 (norm_spaceStr x) hne (h x hx hne) with ⟨res, hres⟩
  rw [hres]
  exact ⟨_, rfl⟩

theorem processShowtime_ok (ctx : LoadCtx) (filmId : Nat) (runtimeMin : Option Int)
    (detailUrl rid : Option String) (baseTags : List String) (db : DB) (st : Showtime)
    (h : ¬(is_missing_token (pyStripStr st.date) || is_missing_token (pyStripStr st.time)) = true →
      (ctx.parseDt (pyStripStr st.date) (pyStripStr st.time)).isSome) :
    ∃ db2, processShowtime ctx filmId runtimeMin detailUrl rid baseTags db st = .ok db2 := by
  unfold processShowtime
  dsimp only
  by_cases hskip : (is_missing_token (pyStripStr st.date)
      || is_missing_token (pyStripStr st.time)) = true
  · rw [if_pos hskip]
    exact ⟨_, rfl⟩
  · rw [if_neg hskip]
    rcases Option.isSome_iff_exists.mp (h hskip) with ⟨t, ht⟩
    rw [ht]
    exact ⟨_, rfl⟩

theorem processRow_ok (ctx : LoadCtx) (db : DB) (r : InputRow)
    (h1 : ∀ n ∈ r.director, norm_spaceStr n ≠ "" →
      normalize_person_name (norm_spaceStr n) ≠ "")
    (h2 : ∀ st ∈ r.showtimes,
      ¬(is_missing_token (pyStripStr st.date) || is_missing_token (pyStripStr st.time)) = true →
      (ctx.parseDt (pyStripStr st.date) (pyStripStr st.time)).isSome) :
    ∃ db2, processRow ctx db r = .ok db2 := by
  unfold processRow
  dsimp only
  rcases link_directors_ok
    (ensure_film db (aiCleanPair ctx r.title).1
      (parse_year r.year) r.description none none).2
    (ensure_film db (aiCleanPair ctx r.title).1
      (parse_year r.year) r.description none none).1
    r.director h1 with ⟨dbl, hdbl⟩
  rw [hdbl]
  exact foldlM_ok _ _ dbl (fun st hst d2 =>
    processShowtime_ok ctx _ _ _ _ _ d2 st (h2 st hst))

/-- C3 (amended): the only per-row exception load_source catches is the AI
title-cleaning call (any aiClean behaviour, including always-raising, never
aborts); rows whose date/time fields carry missing-value placeholder tokens
are skipped by an explicit check, not an exception; and when every director
name normalizes to a non-blank string and every non-skipped showtime parses,
the loader completes the batch. -/
theorem c3_loader_error_policy_amended (ctx : LoadCtx) (db : DB) (rows : List InputRow)
    (h1 : ∀ r ∈ rows, ∀ n ∈ r.director, norm_spaceStr n ≠ "" →
      normalize_person_name (norm_spaceStr n) ≠ "")
    (h2 : ∀ r ∈ rows, ∀ st ∈ r.showtimes,
      ¬(is_missing_token (pyStripStr st.date) || is_missing_token (pyStripStr st.time)) = true →
      (ctx.parseDt (pyStripStr st.date) (pyStripStr st.time)).isSome) :
    ∃ db2, load_source ctx db rows = .ok db2 := by
  unfold load_source
  exact foldlM_ok _ _ _ (fun r hr d2 => processRow_ok ctx d2 r (h1 r hr) (h2 r hr))

theorem c3_witness : ∃ db2, load_source ctxC3ok emptyDB [rowC3a, rowC3b] = .ok db2 :=
  c3_loader_error_policy_amended ctxC3ok emptyDB [rowC3a, rowC3b] (by decide)
    (fun _r _hr _st _hst _h => rfl)

/-- C3 counterexample: a single unparseable (but non-placeholder) date
aborts the whole load_source batch with an error: the exception from the
datetime parser is NOT caught per row, contradicting the claim that any
per-row exception only skips that row.  The second, perfectly good row is
never loaded. -/
theorem c3_counterexample :
    load_source ctxC3 emptyDB [rowC3a, rowC3b] = Except.error "datetime parse error" := by
  rfl

theorem insertFold_none (snap : List ScreeningRow) (runId : Nat) (cutoff now : Int) :
    ∀ stg : List StgRow,
      stg.foldl (sqlInsertStep snap runId cutoff now) none = none := by
  intro stg
  induction stg with
  | nil => rfl
  | cons s rest ih =>
    rw [List.foldl_cons]
    exact ih

theorem stgInsertCond_mono (l l2 : List ScreeningRow) (cutoff cutoff2 : Int) (s : StgRow)
    (hsub : ∀ t ∈ l, t ∈ l2) (hcle : cutoff ≤ cutoff2) :
    stgInsertCond l cutoff s = false → stgInsertCond l2 cutoff2 s = false := by
  intro h
  cases hc : stgInsertCond l2 cutoff2 s with
  | false => rfl
  | true =>
    exfalso
    unfold stgInsertCond at hc
    simp only [Bool.and_eq_true, Bool.not_eq_true'] at hc
    obtain ⟨⟨hA, hB2⟩, hC2⟩ := hc
    have hA0 : decide (cutoff ≤ s.startAt) = true :=
      decide_eq_true (le_trans hcle (of_decide_eq_true hA))
    have htrans : ∀ p : ScreeningRow → Bool, l2.any p = false → l.any p = false := by
      intro p hp
      cases hb : l.any p with
      | false => rfl
      | true =>
        obtain ⟨t, ht, hpt⟩ := List.any_eq_true.mp hb
        have h2 : l2.any p = true := List.any_eq_true.mpr ⟨t, hsub t ht, hpt⟩
        rw [h2] at hp
        cases hp
    exact absurd h (by simp [stgInsertCond, hA0, htrans _ hB2, htrans _ hC2])

theorem sqlInsertFold_covers (snap : List ScreeningRow) (runId : Nat) (cutoff now : Int) :
    ∀ (stg : List StgRow) (live0 : List ScreeningRow) (nid0 cnt0 : Nat)
      (res : List ScreeningRow × Nat × Nat),
      stg.foldl (sqlInsertStep snap runId cutoff now) (some (live0, nid0, cnt0)) = some res →
      (∀ t ∈ snap, t ∈ live0) →
      (∀ t ∈ live0, t ∈ res.1) ∧ (∀ s ∈ stg, stgInsertCond res.1 cutoff s = false) := by
  intro stg
  induction stg with
  | nil =>
    intro live0 nid0 cnt0 res h hsnap
    rw [List.foldl_nil] at h
    cases h
    exact ⟨fun t ht => ht, fun s hs => absurd hs (List.not_mem_nil s)⟩
  | cons s rest ih =>
    intro live0 nid0 cnt0 res h hsnap
    rw [List.foldl_cons] at h
    by_cases hcond : stgInsertCond snap cutoff s = true
    · by_cases huid : live0.any
          (fun t => t.source == s.source && t.sourceUid == s.sourceUid) = true
      · have hstep : sqlInsertStep snap runId cutoff now (some (live0, nid0, cnt0)) s
            = some (live0, nid0, cnt0) := by
          unfold sqlInsertStep
          dsimp only
          rw [if_pos hcond, if_pos huid]
        rw [hstep] at h
        obtain ⟨hmem, hall⟩ := ih live0 nid0 cnt0 res h hsnap
        refine ⟨hmem, ?_⟩
        intro s2 hs2
        rcases List.mem_cons.mp hs2 with rfl | hs2r
        · obtain ⟨t, ht, hpt⟩ := List.any_eq_true.mp huid
          have hany : res.1.any
              (fun t => t.source == s2.source && t.sourceUid == s2.sourceUid) = true :=
            List.any_eq_true.mpr ⟨t, hmem t ht, hpt⟩
          simp [stgInsertCond, hany]
        · exact hall s2 hs2r
      · by_cases hbiz : live0.any
            (fun t => t.cinemaId == s.cinemaId && t.filmId == s.filmId
              && t.startAt == s.startAt) = true
        · have hstep : sqlInsertStep snap runId cutoff now (some (live0, nid0, cnt0)) s
              = none := by
            unfold sqlInsertStep
            dsimp only
            rw [if_pos hcond, if_neg huid, if_pos hbiz]
          rw [hstep, insertFold_none] at h
          cases h
        · have hstep : sqlInsertStep snap runId cutoff now (some (live0, nid0, cnt0)) s
              = some (live0 ++ [stgToLive runId now nid0 s], nid0 + 1, cnt0 + 1) := by
            unfold sqlInsertStep
            dsimp only
            rw [if_pos hcond, if_neg huid, if_neg hbiz]
          rw [hstep] at h
          have hsnap2 : ∀ t ∈ snap, t ∈ live0 ++ [stgToLive runId now nid0 s] :=
            fun t ht => List.mem_append_left _ (hsnap t ht)
          obtain ⟨hmem, hall⟩ := ih _ _ _ res h hsnap2
          have hmem0 : ∀ t ∈ live0, t ∈ res.1 :=
            fun t ht => hmem t (List.mem_append_left _ ht)
          refine ⟨hmem0, ?_⟩
          intro s2 hs2
          rcases List.mem_cons.mp hs2 with rfl | hs2r
          · have hin : stgToLive runId now nid0 s2 ∈ res.1 :=
              hmem _ (List.mem_append_right _ (List.mem_singleton.mpr rfl))
            have hany : res.1.any
                (fun t => t.source == s2.source && t.sourceUid == s2.sourceUid) = true :=
              List.any_eq_true.mpr ⟨stgToLive runId now nid0 s2, hin, by simp [stgToLive]⟩
            simp [stgInsertCond, hany]
          · exact hall s2 hs2r
    · have hcf : stgInsertCond snap cutoff s = false := Bool.eq_false_iff.mpr hcond
      have hstep : sqlInsertStep snap runId cutoff now (some (live0, nid0, cnt0)) s
          = some (live0, nid0, cnt0) := by
        unfold sqlInsertStep
        dsimp only
        rw [if_neg hcond]
      rw [hstep] at h
      obtain ⟨hmem, hall⟩ := ih live0 nid0 cnt0 res h hsnap
      refine ⟨hmem, ?_⟩
      intro s2 hs2
      rcases List.mem_cons.mp hs2 with rfl | hs2r
      · exact stgInsertCond_mono snap res.1 cutoff cutoff s2
          (fun t ht => hmem t (hsnap t ht)) le_rfl hcf
      · exact hall s2 hs2r

theorem sqlInsert_idem (runId runId2 : Nat) (cutoff cutoff2 now now2 : Int) (db : DB)
    (live1 : List ScreeningRow) (nid1 n : Nat)
    (hcle : cutoff ≤ cutoff2)
    (h : sqlInsert runId cutoff now db = some (live1, nid1, n)) :
    sqlInsert runId2 cutoff2 now2 { db with screenings := live1, nextScreeningId := nid1 }
      = some (live1, nid1, 0) := by
  have hcov := sqlInsertFold_covers db.screenings runId cutoff now db.stg db.screenings
    db.nextScreeningId 0 (live1, nid1, n) h (fun t ht => ht)
  have hall : ∀ s ∈ db.stg, stgInsertCond live1 cutoff2 s = false :=
    fun s hs => stgInsertCond_mono live1 live1 cutoff cutoff2 s
      (fun t ht => ht) hcle (hcov.2 s hs)
  have hskip : ∀ (stg : List StgRow) (acc : List ScreeningRow × Nat × Nat),
      (∀ s ∈ stg, stgInsertCond live1 cutoff2 s = false) →
      stg.foldl (sqlInsertStep live1 runId2 cutoff2 now2) (some acc) = some acc := by
    intro stg
    induction stg with
    | nil => intro acc _; rfl
    | cons s rest ih =>
      intro acc hall2
      rw [List.foldl_cons]
      have hstep : sqlInsertStep live1 runId2 cutoff2 now2 (some acc) s = some acc := by
        obtain ⟨l0, n0, c0⟩ := acc
        unfold sqlInsertStep
        dsimp only
        rw [if_neg (by simp [hall2 s (List.mem_cons_self s rest)])]
      rw [hstep]
      exact ih acc (fun s2 hs2 => hall2 s2 (List.mem_cons_of_mem s hs2))
  exact hskip db.stg (live1, nid1, 0) hall

theorem mapsLe_refl (d : DB) : MapsLe d d :=
  ⟨fun _ _ h => h, fun _ _ _ h => h⟩

theorem mapsLe_trans {a b c : DB} (h1 : MapsLe a b) (h2 : MapsLe b c) : MapsLe a c :=
  ⟨fun n i h => h2.1 n i (h1.1 n i h), fun k y i h => h2.2 k y i (h1.2 k y i h)⟩

theorem mapsLe_of_eq {d e : DB} (hc : e.cinemas = d.cinemas) (hf : e.films = d.films) :
    MapsLe d e :=
  ⟨fun n i h => by rw [hc]; exact h, fun k y i h => by rw [hf]; exact h⟩

theorem find?_append_left {α : Type} (p : α → Bool) (l1 l2 : List α) (a : α)
    (h : l1.find? p = some a) : (l1 ++ l2).find? p = some a := by
  induction l1 with
  | nil => rw [List.find?_nil] at h; cases h
  | cons x rest ih =>
    rw [List.cons_append]
    cases hx : p x with
    | true =>
      rw [List.find?_cons_of_pos _ hx] at h ⊢
      exact h
    | false =>
      rw [List.find?_cons_of_neg _ (by simp [hx])] at h ⊢
      exact ih h

theorem find?_append_none {α : Type} (p : α → Bool) (l1 l2 : List α)
    (h : l1.find? p = none) : (l1 ++ l2).find? p = l2.find? p := by
  induction l1 with
  | nil => rfl
  | cons x rest ih =>
    rw [List.cons_append]
    cases hx : p x with
    | true => rw [List.find?_cons_of_pos _ hx] at h; cases h
    | false =>
      rw [List.find?_cons_of_neg _ (by simp [hx])] at h ⊢
      exact ih h

theorem cinIdOf_update (cs : List CinemaRow) (f : CinemaRow → CinemaRow)
    (hname : ∀ c, (f c).name = c.name) (hid : ∀ c, (f c).id = c.id) (n2 : String) :
    cinIdOf (cs.map f) n2 = cinIdOf cs n2 := by
  unfold cinIdOf
  rw [List.find?_map]
  have hp : ((fun c : CinemaRow => c.name == n2) ∘ f) = fun c : CinemaRow => c.name == n2 := by
    funext c
    simp [Function.comp, hname c]
  rw [hp]
  cases hf : cs.find? (fun c => c.name == n2) with
  | none => rfl
  | some c => simp [hid c]

theorem ensure_cinema_facts (d : DB) (name : String) (w : Option String) :
    cinIdOf (ensure_cinema d name w).2.cinemas name = some (ensure_cinema d name w).1 ∧
    MapsLe d (ensure_cinema d name w).2 ∧
    (ensure_cinema d name w).2.films = d.films ∧
    (ensure_cinema d name w).2.stg = d.stg ∧
    (∀ i, cinIdOf d.cinemas name = some i → (ensure_cinema d name w).1 = i) := by
  unfold ensure_cinema
  by_cases h : d.cinemas.any (fun c => c.name == name) = true
  · rw [if_pos h]
    dsimp only
    set f := (fun c : CinemaRow =>
      if c.name == name then { c with website := w, address := none } else c) with hfdef
    have hname : ∀ c, (f c).name = c.name := by
      intro c
      rw [hfdef]
      dsimp only
      split <;> rfl
    have hid : ∀ c, (f c).id = c.id := by
      intro c
      rw [hfdef]
      dsimp only
      split <;> rfl
    have hupd : ∀ n2, cinIdOf (d.cinemas.map f) n2 = cinIdOf d.cinemas n2 :=
      fun n2 => cinIdOf_update d.cinemas f hname hid n2
    obtain ⟨c0, hc0, hp0⟩ := List.any_eq_true.mp h
    have hS : (d.cinemas.find? (fun c => c.name == name)).isSome = true :=
      List.find?_isSome.mpr ⟨c0, hc0, hp0⟩
    obtain ⟨c1, hc1⟩ := Option.isSome_iff_exists.mp hS
    have hfm : (d.cinemas.map f).find? (fun c => c.name == name) = some (f c1) := by
      rw [List.find?_map]
      have hp : ((fun c : CinemaRow => c.name == name) ∘ f)
          = fun c : CinemaRow => c.name == name := by
        funext c
        simp [Function.comp, hname c]
      rw [hp, hc1]
      rfl
    refine ⟨?_, ?_, rfl, rfl, ?_⟩
    · rw [hupd name]
      unfold cinIdOf
      rw [hc1, hfm]
      simp [hid c1]
    · exact ⟨fun n2 i hi => by rw [hupd n2]; exact hi, fun k y i hi => hi⟩
    · intro i hi
      unfold cinIdOf at hi
      rw [hc1] at hi
      simp at hi
      rw [hfm]
      simp [hid c1, hi]
  · rw [if_neg h]
    dsimp only
    have hnone : d.cinemas.find? (fun c => c.name == name) = none := by
      rw [List.find?_eq_none]
      intro c hc hpc
      exact h (List.any_eq_true.mpr ⟨c, hc, hpc⟩)
    refine ⟨?_, ?_, rfl, rfl, ?_⟩
    · unfold cinIdOf
      rw [find?_append_none _ _ _ hnone]
      simp [List.find?]
    · refine ⟨?_, fun k y i hi => hi⟩
      intro n2 i hi
      unfold cinIdOf at hi ⊢
      obtain ⟨c2, hc2⟩ : ∃ c2, d.cinemas.find? (fun c => c.name == n2) = some c2 := by
        cases hfind2 : d.cinemas.find? (fun c => c.name == n2) with
        | none => rw [hfind2] at hi; simp at hi
        | some c2 => exact ⟨c2, rfl⟩
      rw [hc2] at hi
      rw [find?_append_left _ _ _ _ hc2]
      exact hi
    · intro i hi
      unfold cinIdOf at hi
      rw [hnone] at hi
      simp at hi

theorem ensure_film_facts (d : DB) (t : String) (y : Option Int) (ds : Option String) :
    filmIdOf (ensure_film d t y ds none none).2.films (norm_title (some t)) y
      = some (ensure_film d t y ds none none).1 ∧
    MapsLe d (ensure_film d t y ds none none).2 ∧
    (ensure_film d t y ds none none).2.cinemas = d.cinemas ∧
    (ensure_film d t y ds none none).2.stg = d.stg ∧
    (∀ i, filmIdOf d.films (norm_title (some t)) y = some i →
      ensure_film d t y ds none none = (i, d)) := by
  unfold ensure_film
  dsimp only
  cases hf : findFilmByKey d.films (norm_title (some t)) y with
  | some f =>
    dsimp only
    refine ⟨?_, mapsLe_refl d, rfl, rfl, ?_⟩
    · unfold filmIdOf
      rw [hf]
      rfl
    · intro i hi
      unfold filmIdOf at hi
      rw [hf] at hi
      simp at hi
      rw [hi]
  | none =>
    dsimp only
    have hnone : d.films.find? (fun fr =>
        fr.normalizedTitle == some (norm_title (some t)) && fr.year == y) = none := hf
    refine ⟨?_, ?_, rfl, rfl, ?_⟩
    · unfold filmIdOf findFilmByKey
      rw [find?_append_none _ _ _ hnone]
      simp [List.find?]
    · refine ⟨fun n2 i hi => hi, ?_⟩
      intro k y2 i hi
      unfold filmIdOf findFilmByKey at hi ⊢
      obtain ⟨f2, hf2⟩ : ∃ f2, d.films.find? (fun fr =>
          fr.normalizedTitle == some k && fr.year == y2) = some f2 := by
        cases hx : d.films.find? (fun fr => fr.normalizedTitle == some k && fr.year == y2) with
        | none => rw [hx] at hi; simp at hi
        | some f2 => exact ⟨f2, rfl⟩
      rw [hf2] at hi
      rw [find?_append_left _ _ _ _ hf2]
      exact hi
    · intro i hi
      unfold filmIdOf findFilmByKey at hi
      rw [hnone] at hi
      simp at hi

theorem ensure_person_good (d : DB) (n : String) (x : Nat × DB)
    (h : ensure_person d n none none = .ok x) : goodName n = true := by
  unfold ensure_person at h
  by_cases h1 : (n == "" || pyStripStr n == "") = true
  · rw [if_pos h1] at h
    cases h
  · rw [if_neg h1] at h
    dsimp only at h
    by_cases h2 : (normalize_person_name n == "") = true
    · rw [if_pos h2] at h
      cases h
    · simp [goodName, Bool.eq_false_iff.mpr h1, Bool.eq_false_iff.mpr h2]

theorem ensure_person_facts (d : DB) (n : String) (h : goodName n = true) :
    ∃ pid d2, ensure_person d n none none = .ok (pid, d2) ∧
      d2.cinemas = d.cinemas ∧ d2.films = d.films ∧ d2.stg = d.stg := by
  unfold goodName at h
  simp only [Bool.and_eq_true, Bool.not_eq_true'] at h
  obtain ⟨h1, h2⟩ := h
  unfold ensure_person
  rw [if_neg (by simp [h1])]
  dsimp only
  rw [if_neg (by simp [h2])]
  simp only [pyTruthy, pyTruthyInt]
  cases d.persons.find? (fun p => p.normalizedName == some (normalize_person_name n)) with
  | none => exact ⟨_, _, rfl, rfl, rfl, rfl⟩
  | some p => exact ⟨_, _, rfl, rfl, rfl, rfl⟩

theorem link_directors_good (fid : Nat) (names : List String) :
    ∀ (d d2 : DB), link_directors d fid names = .ok d2 →
      ∀ n ∈ (names.map norm_spaceStr).filter (fun n => !(n == "")), goodName n = true := by
  unfold link_directors
  generalize (names.map norm_spaceStr).filter (fun n => !(n == "")) = L
  induction L with
  | nil =>
    intro d d2 _h n hn
    exact absurd hn (List.not_mem_nil n)
  | cons a rest ih =>
    intro d d2 h n hn
    rw [List.foldlM_cons] at h
    cases hep : ensure_person d a none none with
    | error err =>
      rw [hep] at h
      have h2 : (Except.error err : Except String DB) = Except.ok d2 := h
      cases h2
    | ok pr =>
      obtain ⟨pid, d1⟩ := pr
      rw [hep] at h
      rcases List.mem_cons.mp hn with rfl | hnr
      · exact ensure_person_good d n (pid, d1) hep
      · exact ih _ d2 h n hnr

theorem link_directors_replay (fid : Nat) (names : List String) :
    ∀ e : DB,
      (∀ n ∈ (names.map norm_spaceStr).filter (fun n => !(n == "")), goodName n = true) →
      ∃ e2, link_directors e fid names = .ok e2 ∧
        e2.cinemas = e.cinemas ∧ e2.films = e.films ∧ e2.stg = e.stg := by
  unfold link_directors
  generalize (names.map norm_spaceStr).filter (fun n => !(n == "")) = L
  induction L with
  | nil =>
    intro e _
    exact ⟨e, rfl, rfl, rfl, rfl⟩
  | cons a rest ih =>
    intro e hgood
    obtain ⟨pid, d2, hep, hc, hf2, hs⟩ :=
      ensure_person_facts e a (hgood a (List.mem_cons_self a rest))
    obtain ⟨e2, hfold, hc2, hf3, hs2⟩ := ih
      { d2 with filmPerson := fpInsertDedup d2.filmPerson fid pid "director" }
      (fun n hn => hgood n (List.mem_cons_of_mem a hn))
    refine ⟨e2, ?_, ?_, ?_, ?_⟩
    · rw [List.foldlM_cons]
      rw [hep]
      exact hfold
    · rw [hc2]; exact hc
    · rw [hf3]; exact hf2
    · rw [hs2]; exact hs

theorem processShowtime_maps (ctx : LoadCtx) (fid : Nat) (rt : Option Int)
    (du rid : Option String) (tags : List String) (d : DB) (st : Showtime) (d2 : DB)
    (h : processShowtime ctx fid rt du rid tags d st = .ok d2) : MapsLe d d2 := by
  unfold processShowtime at h
  dsimp only at h
  by_cases hskip : (is_missing_token (pyStripStr st.date)
      || is_missing_token (pyStripStr st.time)) = true
  · rw [if_pos hskip] at h
    injection h with hd2
    rw [← hd2]
    exact (ensure_cinema_facts d _ _).2.1
  · rw [if_neg hskip] at h
    cases hp : ctx.parseDt (pyStripStr st.date) (pyStripStr st.time) with
    | none =>
      rw [hp] at h
      have h2 : (Except.error "datetime parse error" : Except String DB) = Except.ok d2 := h
      cases h2
    | some startUtc =>
      rw [hp] at h
      dsimp only at h
      injection h with hd2
      rw [← hd2]
      exact mapsLe_trans (ensure_cinema_facts d _ _).2.1 (mapsLe_of_eq rfl rfl)

theorem foldlM_maps {α : Type} (f : DB → α → Except String DB)
    (hf : ∀ d a d2, f d a = .ok d2 → MapsLe d d2) :
    ∀ (l : List α) (d d2 : DB), l.foldlM f d = .ok d2 → MapsLe d d2 := by
  intro l
  induction l with
  | nil =>
    intro d d2 h
    have h2 : (Except.ok d : Except String DB) = Except.ok d2 := h
    injection h2 with h3
    rw [← h3]
    exact mapsLe_refl d
  | cons a l ih =>
    intro d d2 h
    rw [List.foldlM_cons] at h
    cases hfa : f d a with
    | error err =>
      rw [hfa] at h
      have h2 : (Except.error err : Except String DB) = Except.ok d2 := h
      cases h2
    | ok d1 =>
      rw [hfa] at h
      exact mapsLe_trans (hf d a d1 hfa) (ih d1 d2 h)

theorem processRow_maps (ctx : LoadCtx) (d : DB) (r : InputRow) (d2 : DB)
    (h : processRow ctx d r = .ok d2) : MapsLe d d2 := by
  unfold processRow at h
  dsimp only at h
  cases hld : link_directors
      (ensure_film d (aiCleanPair ctx r.title).1 (parse_year r.year) r.description none none).2
      (ensure_film d (aiCleanPair ctx r.title).1 (parse_year r.year) r.description none none).1
      r.director with
  | error err =>
    rw [hld] at h
    have h2 : (Except.error err : Except String DB) = Except.ok d2 := h
    cases h2
  | ok dbl =>
    rw [hld] at h
    dsimp only at h
    obtain ⟨el1, hok1, hc1, hf1, hs1⟩ := link_directors_replay
      (ensure_film d (aiCleanPair ctx r.title).1 (parse_year r.year) r.description none none).1
      r.director
      (ensure_film d (aiCleanPair ctx r.title).1 (parse_year r.year) r.description none none).2
      (link_directors_good _ r.director _ _ hld)
    rw [hld] at hok1
    injection hok1 with heq
    subst heq
    exact mapsLe_trans (ensure_film_facts d _ _ _).2.1
      (mapsLe_trans (mapsLe_of_eq hc1 hf1)
        (foldlM_maps _ (fun dd a dd2 hh => processShowtime_maps ctx _ _ _ _ _ dd a dd2 hh)
          r.showtimes dbl d2 h))

theorem foldlM_replay {α : Type} (f g : DB → α → Except String DB) (src : String) (t2 : Int)
    (hstep : ∀ d d2 e a, f d a = .ok d2 → MapsLe d2 e →
      ∃ e2 Δ, g e a = .ok e2 ∧ MapsLe e e2 ∧ d2.stg = d.stg ++ Δ ∧
        e2.stg = e.stg ++ Δ.map (reLoad t2) ∧ (∀ s ∈ Δ, s.source = src))
    (hmono : ∀ d a d2, f d a = .ok d2 → MapsLe d d2) :
    ∀ (l : List α) (d d2 e : DB), l.foldlM f d = .ok d2 → MapsLe d2 e →
      ∃ e2 Δ, l.foldlM g e = .ok e2 ∧ MapsLe e e2 ∧ d2.stg = d.stg ++ Δ ∧
        e2.stg = e.stg ++ Δ.map (reLoad t2) ∧ (∀ s ∈ Δ, s.source = src) := by
  intro l
  induction l with
  | nil =>
    intro d d2 e h hle
    have h2 : (Except.ok d : Except String DB) = Except.ok d2 := h
    injection h2 with h3
    subst h3
    exact ⟨e, [], rfl, mapsLe_refl e, by simp, by simp,
      fun s hs => absurd hs (List.not_mem_nil s)⟩
  | cons a l ih =>
    intro d d2 e h hle
    rw [List.foldlM_cons] at h
    cases hfa : f d a with
    | error err =>
      rw [hfa] at h
      have h2 : (Except.error err : Except String DB) = Except.ok d2 := h
      cases h2
    | ok d1 =>
      rw [hfa] at h
      have h1 : l.foldlM f d1 = .ok d2 := h
      have hmle1 : MapsLe d1 e := mapsLe_trans (foldlM_maps f hmono l d1 d2 h1) hle
      obtain ⟨e1, Δ0, hga, hme1, hstg0, hstg0e, hsrc0⟩ := hstep d d1 e a hfa hmle1
      obtain ⟨e2, Δ1, hgl, hme2, hstg1, hstg1e, hsrc1⟩ :=
        ih d1 d2 e1 h1 (mapsLe_trans hle hme1)
      refine ⟨e2, Δ0 ++ Δ1, ?_, mapsLe_trans hme1 hme2, ?_, ?_, ?_⟩
      · rw [List.foldlM_cons, hga]
        exact hgl
      · rw [hstg1, hstg0, List.append_assoc]
      · rw [List.map_append, hstg1e, hstg0e, List.append_assoc]
      · intro s hs
        rcases List.mem_append.mp hs with hs0 | hs1
        · exact hsrc0 s hs0
        · exact hsrc1 s hs1

theorem processShowtime_replay (ctx : LoadCtx) (t2 : Int) (fid : Nat) (rt : Option Int)
    (du rid : Option String) (tags : List String) (d d2 e : DB) (st : Showtime)
    (h : processShowtime ctx fid rt du rid tags d st = .ok d2)
    (hle : MapsLe d2 e) :
    ∃ e2 Δ, processShowtime { ctx with loadedAt := t2 } fid rt du rid tags e st = .ok e2 ∧
      MapsLe e e2 ∧ d2.stg = d.stg ++ Δ ∧ e2.stg = e.stg ++ Δ.map (reLoad t2) ∧
      (∀ s ∈ Δ, s.source = ctx.sourceName) := by
  have hRV : resolveVenue { ctx with loadedAt := t2 } st = resolveVenue ctx st := rfl
  have hVS : venueSite { ctx with loadedAt := t2 } st = venueSite ctx st := rfl
  unfold processShowtime at h ⊢
  dsimp only at h ⊢
  rw [hRV, hVS]
  by_cases hskip : (is_missing_token (pyStripStr st.date)
      || is_missing_token (pyStripStr st.time)) = true
  · rw [if_pos hskip] at h ⊢
    injection h with hd2
    refine ⟨_, [], rfl, ?_, ?_, ?_, ?_⟩
    · exact (ensure_cinema_facts e _ _).2.1
    · rw [List.append_nil, ← hd2]
      exact (ensure_cinema_facts d _ _).2.2.2.1
    · rw [List.map_nil, List.append_nil]
      exact (ensure_cinema_facts e _ _).2.2.2.1
    · intro s hs
      exact absurd hs (List.not_mem_nil s)
  · rw [if_neg hskip] at h ⊢
    cases hp : ctx.parseDt (pyStripStr st.date) (pyStripStr st.time) with
    | none =>
      rw [hp] at h
      have h2 : (Except.error "datetime parse error" : Except String DB) = Except.ok d2 := h
      cases h2
    | some startUtc =>
      rw [hp] at h
      dsimp only at h ⊢
      injection h with hd2
      have hcd := ensure_cinema_facts d (resolveVenue ctx st) (venueSite ctx st)
      have hce := ensure_cinema_facts e (resolveVenue ctx st) (venueSite ctx st)
      have hc1 : cinIdOf d2.cinemas (resolveVenue ctx st)
          = some (ensure_cinema d (resolveVenue ctx st) (venueSite ctx st)).1 := by
        rw [← hd2]
        exact hcd.1
      have hcid : (ensure_cinema e (resolveVenue ctx st) (venueSite ctx st)).1
          = (ensure_cinema d (resolveVenue ctx st) (venueSite ctx st)).1 :=
        hce.2.2.2.2 _ (hle.1 _ _ hc1)
      have hrow : buildStgRow { ctx with loadedAt := t2 } fid rt du rid tags st
            (ensure_cinema e (resolveVenue ctx st) (venueSite ctx st)).1 startUtc
          = reLoad t2 (buildStgRow ctx fid rt du rid tags st
            (ensure_cinema d (resolveVenue ctx st) (venueSite ctx st)).1 startUtc) := by
        rw [hcid]
        rfl
      refine ⟨_, [buildStgRow ctx fid rt du rid tags st
          (ensure_cinema d (resolveVenue ctx st) (venueSite ctx st)).1 startUtc],
        rfl, ?_, ?_, ?_, ?_⟩
      · exact mapsLe_trans hce.2.1 (mapsLe_of_eq rfl rfl)
      · rw [← hd2]
        dsimp only
        rw [hcd.2.2.2.1]
      · dsimp only
        rw [List.map_cons, List.map_nil, hrow, hce.2.2.2.1]
      · intro s hs
        rcases List.mem_singleton.mp hs with rfl
        rfl

theorem processRow_replay (ctx : LoadCtx) (t2 : Int) (d d2 e : DB) (r : InputRow)
    (h : processRow ctx d r = .ok d2) (hle : MapsLe d2 e) :
    ∃ e2 Δ, processRow { ctx with loadedAt := t2 } e r = .ok e2 ∧
      MapsLe e e2 ∧ d2.stg = d.stg ++ Δ ∧ e2.stg = e.stg ++ Δ.map (reLoad t2) ∧
      (∀ s ∈ Δ, s.source = ctx.sourceName) := by
  have hACP : aiCleanPair { ctx with loadedAt := t2 } r.title = aiCleanPair ctx r.title := rfl
  unfold processRow at h ⊢
  dsimp only at h ⊢
  rw [hACP]
  cases hld : link_directors
      (ensure_film d (aiCleanPair ctx r.title).1 (parse_year r.year) r.description none none).2
      (ensure_film d (aiCleanPair ctx r.title).1 (parse_year r.year) r.description none none).1
      r.director with
  | error err =>
    rw [hld] at h
    have h2 : (Except.error err : Except String DB) = Except.ok d2 := h
    cases h2
  | ok dbl =>
    rw [hld] at h
    dsimp only at h
    obtain ⟨el1, hok1, hc1, hf1, hs1⟩ := link_directors_replay
      (ensure_film d (aiCleanPair ctx r.title).1 (parse_year r.year) r.description none none).1
      r.director
      (ensure_film d (aiCleanPair ctx r.title).1 (parse_year r.year) r.description none none).2
      (link_directors_good _ r.director _ _ hld)
    rw [hld] at hok1
    injection hok1 with heq
    subst heq
    have hfd := ensure_film_facts d (aiCleanPair ctx r.title).1 (parse_year r.year) r.description
    have hfe := ensure_film_facts e (aiCleanPair ctx r.title).1 (parse_year r.year) r.description
    have hfid1 : filmIdOf dbl.films (norm_title (some (aiCleanPair ctx r.title).1))
        (parse_year r.year)
        = some (ensure_film d (aiCleanPair ctx r.title).1 (parse_year r.year)
            r.description none none).1 := by
      rw [hf1]
      exact hfd.1
    have hmld2 := foldlM_maps _
      (fun dd a dd2 hh => processShowtime_maps ctx _ _ _ _ _ dd a dd2 hh)
      r.showtimes dbl d2 h
    have hstable : ensure_film e (aiCleanPair ctx r.title).1 (parse_year r.year)
        r.description none none
        = ((ensure_film d (aiCleanPair ctx r.title).1 (parse_year r.year)
            r.description none none).1, e) :=
      hfe.2.2.2.2 _ (hle.2 _ _ _ (hmld2.2 _ _ _ hfid1))
    rw [hstable]
    dsimp only
    obtain ⟨el, hokE, hcE, hfE, hsE⟩ := link_directors_replay
      (ensure_film d (aiCleanPair ctx r.title).1 (parse_year r.year) r.description none none).1
      r.director e
      (link_directors_good _ r.director _ _ hld)
    rw [hokE]
    dsimp only
    obtain ⟨e2, Δ, hfold, hmE, hstgD, hstgE2, hsrc⟩ := foldlM_replay
      (processShowtime ctx
        (ensure_film d (aiCleanPair ctx r.title).1 (parse_year r.year) r.description none none).1
        r.duration r.detailUrl r.rid (aiCleanPair ctx r.title).2)
      (processShowtime { ctx with loadedAt := t2 }
        (ensure_film d (aiCleanPair ctx r.title).1 (parse_year r.year) r.description none none).1
        r.duration r.detailUrl r.rid (aiCleanPair ctx r.title).2)
      ctx.sourceName t2
      (fun dd dd2 ee a hh hll => processShowtime_replay ctx t2 _ _ _ _ _ dd dd2 ee a hh hll)
      (fun dd a dd2 hh => processShowtime_maps ctx _ _ _ _ _ dd a dd2 hh)
      r.showtimes dbl d2 el h (mapsLe_trans hle (mapsLe_of_eq hcE hfE))
    refine ⟨e2, Δ, hfold, ?_, ?_, ?_, hsrc⟩
    · exact mapsLe_trans (mapsLe_of_eq hcE hfE) hmE
    · rw [hstgD, hs1, hfd.2.2.2.1]
    · rw [hstgE2, hsE]

theorem filter_idem {α : Type} (p : α → Bool) (l : List α) :
    (l.filter p).filter p = l.filter p := by
  induction l with
  | nil => rfl
  | cons a rest ih =>
    by_cases ha : p a = true
    · rw [List.filter_cons, if_pos ha, List.filter_cons, if_pos ha, ih]
    · rw [List.filter_cons, if_neg ha, ih]

theorem filter_none_of_all {α : Type} (p : α → Bool) (l : List α)
    (h : ∀ a ∈ l, p a = false) : l.filter p = [] := by
  induction l with
  | nil => rfl
  | cons a rest ih =>
    rw [List.filter_cons, if_neg (by simp [h a (List.mem_cons_self a rest)])]
    exact ih (fun x hx => h x (List.mem_cons_of_mem a hx))

theorem load_source_replay (ctx : LoadCtx) (t2 : Int) (db db1 : DB) (rows : List InputRow)
    (h : load_source ctx db rows = Except.ok db1) :
    ∃ db2, load_source { ctx with loadedAt := t2 } db1 rows = Except.ok db2 ∧
      db2.stg.map dropLoadedAt = db1.stg.map dropLoadedAt ∧
      db2.stg.length = db1.stg.length := by
  have hunf1 : load_source ctx db rows
      = rows.foldlM (processRow ctx)
        { (ensure_cinema db ctx.cinemaName ctx.cinemaWebsite).2 with
          rawImports := (ensure_cinema db ctx.cinemaName ctx.cinemaWebsite).2.rawImports
            ++ [(⟨(ensure_cinema db ctx.cinemaName ctx.cinemaWebsite).1,
                  ctx.sourceName⟩ : RawImportRow)],
          stg := (ensure_cinema db ctx.cinemaName ctx.cinemaWebsite).2.stg.filter
            (fun s => !(s.source == ctx.sourceName)) } := rfl
  have hunf2 : load_source { ctx with loadedAt := t2 } db1 rows
      = rows.foldlM (processRow { ctx with loadedAt := t2 })
        { (ensure_cinema db1 ctx.cinemaName ctx.cinemaWebsite).2 with
          rawImports := (ensure_cinema db1 ctx.cinemaName ctx.cinemaWebsite).2.rawImports
            ++ [(⟨(ensure_cinema db1 ctx.cinemaName ctx.cinemaWebsite).1,
                  ctx.sourceName⟩ : RawImportRow)],
          stg := (ensure_cinema db1 ctx.cinemaName ctx.cinemaWebsite).2.stg.filter
            (fun s => !(s.source == ctx.sourceName)) } := rfl
  rw [hunf1] at h
  have hm0 : MapsLe db1
      { (ensure_cinema db1 ctx.cinemaName ctx.cinemaWebsite).2 with
        rawImports := (ensure_cinema db1 ctx.cinemaName ctx.cinemaWebsite).2.rawImports
          ++ [(⟨(ensure_cinema db1 ctx.cinemaName ctx.cinemaWebsite).1,
                ctx.sourceName⟩ : RawImportRow)],
        stg := (ensure_cinema db1 ctx.cinemaName ctx.cinemaWebsite).2.stg.filter
          (fun s => !(s.source == ctx.sourceName)) } :=
    mapsLe_trans (ensure_cinema_facts db1 ctx.cinemaName ctx.cinemaWebsite).2.1
      (mapsLe_of_eq rfl rfl)
  obtain ⟨e4, Δ, hfold, _hmle, hstg1, hstg2, hsrc⟩ := foldlM_replay
    (processRow ctx) (processRow { ctx with loadedAt := t2 }) ctx.sourceName t2
    (fun dd dd2 ee a hh hll => processRow_replay ctx t2 dd dd2 ee a hh hll)
    (fun dd a dd2 hh => processRow_maps ctx dd a dd2 hh)
    rows _ db1 _ h hm0
  dsimp only at hstg1 hstg2
  rw [(ensure_cinema_facts db ctx.cinemaName ctx.cinemaWebsite).2.2.2.1] at hstg1
  rw [(ensure_cinema_facts db1 ctx.cinemaName ctx.cinemaWebsite).2.2.2.1] at hstg2
  have hfiltD : Δ.filter (fun s => !(s.source == ctx.sourceName)) = [] :=
    filter_none_of_all _ _ (fun s hs => by simp [hsrc s hs])
  have hfilt : db1.stg.filter (fun s => !(s.source == ctx.sourceName))
      = db.stg.filter (fun s => !(s.source == ctx.sourceName)) := by
    rw [hstg1, List.filter_append, filter_idem, hfiltD, List.append_nil]
  rw [hfilt] at hstg2
  have hmapD : Δ.map (dropLoadedAt ∘ reLoad t2) = Δ.map dropLoadedAt :=
    List.map_congr_left (fun a _ => rfl)
  refine ⟨e4, ?_, ?_, ?_⟩
  · rw [hunf2]
    exact hfold
  · rw [hstg2, hstg1, List.map_append, List.map_append, List.map_map, hmapD]
  · rw [hstg2, hstg1]
    simp [List.length_append]

/-- C8: running the loader twice over the same input JSON produces no
duplicate rows.  Loader half: if load_source succeeds, a second run over the
same input (same oracles, any new load timestamp) succeeds and leaves the
staging table with exactly the same rows up to the refreshed loaded_at_utc
column — same length, no new or duplicated rows — because the run first
clears staging for its source and the dimension upserts resolve to the ids
of the first run.  Merge half: the insert phase is an idempotent upsert:
after a successful SQL_INSERT, re-running it (same or later cutoff) inserts
zero rows and leaves the screening table unchanged, because every staging
row is now matched in live by ingest or business identity. -/
theorem c8_loader_merge_idempotent (ctx : LoadCtx) (t2 : Int) (db db1 : DB)
    (rows : List InputRow) (runId runId2 : Nat) (cutoff cutoff2 now now2 : Int)
    (dbm : DB) (live1 : List ScreeningRow) (nid1 n : Nat)
    (hload : load_source ctx db rows = Except.ok db1)
    (hcle : cutoff ≤ cutoff2)
    (hins : sqlInsert runId cutoff now dbm = some (live1, nid1, n)) :
    (∃ db2, load_source { ctx with loadedAt := t2 } db1 rows = Except.ok db2 ∧
      db2.stg.map dropLoadedAt = db1.stg.map dropLoadedAt ∧
      db2.stg.length = db1.stg.length) ∧
    sqlInsert runId2 cutoff2 now2 { dbm with screenings := live1, nextScreeningId := nid1 }
      = some (live1, nid1, 0) :=
  ⟨load_source_replay ctx t2 db db1 rows hload,
   sqlInsert_idem runId runId2 cutoff cutoff2 now now2 dbm live1 nid1 n hcle hins⟩

theorem c8_witness :
    (∃ db2, load_source { ctxC3ok with loadedAt := 777 } dbC8 [rowC3a, rowC3b]
        = Except.ok db2 ∧
      db2.stg.map dropLoadedAt = dbC8.stg.map dropLoadedAt ∧
      db2.stg.length = dbC8.stg.length) ∧
    sqlInsert 2 0 5 { dbC6 with screenings := insC8.1, nextScreeningId := insC8.2.1 }
      = some (insC8.1, insC8.2.1, 0) :=
  c8_loader_merge_idempotent ctxC3ok 777 emptyDB dbC8 [rowC3a, rowC3b] 1 2 0 0 0 5 dbC6
    insC8.1 insC8.2.1 insC8.2.2 (by rfl) (by decide) (by rfl)
